import Mathlib

/-!
Verification of the HomeMigrate repository (main.go and its sibling variant).

The development shallowly embeds the two core components of the program:

* the USB device monitor (function detectUSB of both files): a polling loop
  that diffs the current set of removable-device mount points against the
  previous snapshot and emits add/remove events on a channel;

* the tree synchronizer (functions copyHomeFolder and copyFile of the
  variant with exclusion rules, src/unnamed/part_000 lines 289-462): a
  two-pass recursive walk (count, then copy) over the home directory that
  applies exclusion rules, mirrors directories and file contents with
  permission bits under destPath/home_backup, and reports progress.

Strings are embedded as lists of characters (Go strings are byte strings;
all operations used by the program are character-wise).  File trees are
embedded as a nested inductive type; filepath.Walk is embedded by a pair of
mutually recursive functions faithful to its visit order, SkipDir handling
and error propagation.  I/O failures are injected through an environment
that says, per path, whether os.MkdirAll fails and at which internal stage
copyFile fails.
-/

/-- Model of a Go string / filesystem path: a list of characters. -/
abbrev FsPath := List Char

/-- Go strings.HasPrefix(s, pre). -/
def hasPfx (s pre : FsPath) : Bool := decide (pre <+: s)

/-- Go strings.Contains(s, pat): pat occurs as a contiguous substring of s. -/
def hasSub (s pat : FsPath) : Bool := decide (pat <:+: s)

/-- Go filepath.Base for a clean path without trailing slash: the suffix
after the last slash (the whole path when it has no slash). -/
def baseOf (p : FsPath) : FsPath := (p.reverse.takeWhile (fun c => c ≠ '/')).reverse

/-- Go filepath.Dir for a path containing a non-leading slash: everything
before the last slash.  For a path without a slash, filepath.Dir returns
"." and we model that case directly. -/
def dirOf (p : FsPath) : FsPath :=
  if '/' ∈ p then ((p.reverse.dropWhile (fun c => c ≠ '/')).drop 1).reverse
  else ['.']

/-- Go filepath.Join(d, r) for a clean directory path d and a clean relative
path r as produced by filepath.Rel: Join(d, ".") = d and otherwise
Join(d, r) = d ++ "/" ++ r. -/
def goJoin (d r : FsPath) : FsPath := if r = ['.'] then d else d ++ '/' :: r

/-- Go filepath.Rel(b, p) for the shapes arising in a walk rooted at b:
Rel(b, b) = "." and Rel(b, b ++ "/" ++ r) = r; other shapes are modelled as
failure (the program treats a Rel error as a walk error). -/
def relP (b p : FsPath) : Option FsPath :=
  if p = b then some ['.']
  else if hasPfx p (b ++ ['/']) then some (p.drop (b.length + 1)) else none

/-- Relative path of the child named n of a directory whose own relative
path is r (with "." standing for the walk root, as filepath.Rel yields). -/
def childR (r n : FsPath) : FsPath := if r = ['.'] then n else r ++ '/' :: n

/-- A source-tree node as observed by filepath.Walk: a regular file with
content and permission bits, a directory with permission bits and children
(listed in the lexical order readDirNames yields), or a node whose lstat
fails (the walk function then receives a non-nil error and a nil info). -/
inductive Entry where
  | file (name : FsPath) (content : List Nat) (mode : Nat)
  | dir (name : FsPath) (mode : Nat) (children : List Entry)
  | broken (name : FsPath)

/-- Go info.IsDir(). -/
def Entry.isDir : Entry → Bool
  | .dir _ _ _ => true
  | _ => false

/-- Name of the entry within its parent directory. -/
def Entry.name : Entry → FsPath
  | .file n _ _ => n
  | .dir n _ _ => n
  | .broken n => n

/-- Well-formedness of a real directory tree: every name is a proper
directory entry (readDirNames never yields ".", and names never contain a
slash) and the names within one directory are distinct. -/
def goodName (n : FsPath) : Bool := decide (n ≠ ['.'] ∧ '/' ∉ n)

mutual
def wfE : Entry → Bool
  | .file n _ _ => goodName n
  | .broken n => goodName n
  | .dir n _ cs => goodName n && decide ((cs.map Entry.name).Nodup) && wfL cs

def wfL : List Entry → Bool
  | [] => true
  | c :: cs => wfE c && wfL cs
end

/- ------------------------------------------------------------------ -/
/- Device monitor (detectUSB, src/main.go lines 158-210 and           -/
/- src/unnamed/part_000 lines 235-287; the two copies are identical). -/
/- ------------------------------------------------------------------ -/

/-- A mounted filesystem as returned by disk.Partitions: the device path
and the mount point. -/
structure Partition where
  device : FsPath
  mountpoint : FsPath

/-- An event sent on the USB channel (struct USBEvent of the source). -/
structure USBEvent where
  path : FsPath
  removed : Bool
deriving DecidableEq

/-- The filtering loop of detectUSB: keep the mount points of partitions
whose device path starts with /dev/sd, in enumeration order. -/
def filterRemovable (ps : List Partition) : List FsPath :=
  (ps.filter (fun q => hasPfx q.device ("/dev/sd".data))).map Partition.mountpoint

/-- The linear membership scan detectUSB performs with its found flag. -/
def elemB (x : FsPath) (l : List FsPath) : Bool := decide (x ∈ l)

/-- Events emitted during one poll cycle, in program order: first one
attach event per current mount point missing from the previous snapshot,
then one detach event per previous mount point missing from the current
snapshot. -/
def cycleEvents (previous current : List FsPath) : List USBEvent :=
  (current.filter (fun c => !elemB c previous)).map (fun c => ⟨c, false⟩) ++
  (previous.filter (fun q => !elemB q current)).map (fun q => ⟨q, true⟩)

/-- Observable actions of one iteration of the detectUSB loop, in order:
channel sends, the assignment to previousPartitions, and the call to
time.Sleep(2 * time.Second). -/
inductive MonAct where
  | send (e : USBEvent)
  | setPrev (snapshot : List FsPath)
  | sleep2s
deriving DecidableEq

/-- One iteration of the detectUSB loop.  The poll argument is the result
of disk.Partitions: none models an enumeration error.  On an error the
code logs and executes continue, which skips the diffing, the snapshot
assignment and also the time.Sleep at the bottom of the loop; the function
returns the action trace of the iteration and the snapshot it leaves in
previousPartitions. -/
def detectUSBCycle (previous : List FsPath) (poll : Option (List Partition)) :
    List MonAct × List FsPath :=
  match poll with
  | none => ([], previous)
  | some ps =>
    let current := filterRemovable ps
    ((cycleEvents previous current).map .send ++ [.setPrev current, .sleep2s], current)

/- ------------------------------------------------------------------ -/
/- filepath.Walk                                                       -/
/- ------------------------------------------------------------------ -/

/-- Result a walk function returns besides nil: filepath.SkipDir or a real
error. -/
inductive WalkRet (ε : Type) where
  | skipDir
  | fail (e : ε)

/-- What the walk function is invoked with: a successfully stat-ed entry,
or a stat error (info is nil, err is non-nil). -/
inductive WalkInput where
  | ok (e : Entry)
  | statError

mutual
/-- Embedding of Go filepath.Walk on one node.  fn receives the
accumulated state, the full path of the node and the node (or a stat
error); it returns the new state and nil / SkipDir / an error.  SkipDir
returned for a directory prunes the subtree; SkipDir returned for a
non-directory propagates and makes the enclosing loop skip the remainder
of the containing directory, exactly as in the Go source of path/filepath. -/
def walk1 {σ ε : Type} (fn : σ → FsPath → WalkInput → σ × Option (WalkRet ε)) :
    FsPath → Entry → σ → σ × Option (WalkRet ε)
  | p, .broken n, s =>
    match fn s p .statError with
    | (s1, some (.fail e)) => (s1, some (.fail e))
    | (s1, _) => (s1, none)
  | p, .file n c m, s => fn s p (.ok (.file n c m))
  | p, .dir n m cs, s =>
    match fn s p (.ok (.dir n m cs)) with
    | (s1, some (.fail e)) => (s1, some (.fail e))
    | (s1, some .skipDir) => (s1, none)
    | (s1, none) => walkList fn p cs s1

/-- The loop of filepath.Walk over the entries of a directory at path p. -/
def walkList {σ ε : Type} (fn : σ → FsPath → WalkInput → σ × Option (WalkRet ε)) :
    FsPath → List Entry → σ → σ × Option (WalkRet ε)
  | _, [], s => (s, none)
  | p, c :: cs, s =>
    match walk1 fn (p ++ '/' :: c.name) c s with
    | (s1, none) => walkList fn p cs s1
    | (s1, some .skipDir) =>
      if c.isDir then walkList fn p cs s1 else (s1, some .skipDir)
    | (s1, some (.fail e)) => (s1, some (.fail e))
end

/- ------------------------------------------------------------------ -/
/- Tree synchronizer (copyHomeFolder / copyFile of part_000)           -/
/- ------------------------------------------------------------------ -/

/-- Exclusion rule 1 (lines 313, 363): the base name starts with a dot. -/
def hiddenName (p : FsPath) : Bool := hasPfx (baseOf p) ['.']

/-- Exclusion rule 2 (lines 321-323, 371-373): the path contains one of
the configured substrings. -/
def sysCachePath (p : FsPath) : Bool :=
  hasSub p ("go/pkg/mod".data) || hasSub p (".cache".data) || hasSub p (".local/share".data)

/-- Exclusion rule 3 (lines 331-332, 381-382): the absolute path extends
the resolved destination root absDestHomeDir as a string.  The walk hands
the callbacks absolute clean paths when the root is absolute and clean, so
filepath.Abs is the identity here and the test is a plain HasPrefix. -/
def underDest (a p : FsPath) : Bool := hasPfx p a

/-- The combined exclusion predicate the three sequential tests implement. -/
def excluded (a p : FsPath) : Bool := hiddenName p || sysCachePath p || underDest a p

/-- The walk function of the counting pass (part_000 lines 306-343):
walk errors are skipped, excluded entries are skipped (pruning a
directory subtree via SkipDir), and every remaining non-directory entry
increments the tally. -/
def countFn (a : FsPath) (n : Nat) (p : FsPath) : WalkInput → Nat × Option (WalkRet Unit)
  | .statError => (n, none)
  | .ok info =>
    if hiddenName p then (n, if info.isDir then some .skipDir else none)
    else if sysCachePath p then (n, if info.isDir then some .skipDir else none)
    else if underDest a p then (n, if info.isDir then some .skipDir else none)
    else (if info.isDir then n else n + 1, none)

/-- Destination writes the synchronizer can perform.  mkdirAll p m is
os.MkdirAll(p, m): it creates the directory with permission bits m when p
does not yet exist and does nothing when it does (needed parents always
exist in the runs modelled here, created earlier in walk pre-order or, for
the destination root, being the mount point itself).  writeFile p c m is
the net effect of copyFile on the destination file p: content some c when
io.Copy completed (none for a truncated partial copy), permission bits
some m when the final chmod succeeded (none when the file was left with
the default bits of os.Create). -/
inductive FSOp where
  | mkdirAll (path : FsPath) (mode : Nat)
  | writeFile (path : FsPath) (content : Option (List Nat)) (mode : Option Nat)
deriving DecidableEq

/-- Target path of a destination write. -/
def FSOp.target : FSOp → FsPath
  | .mkdirAll p _ => p
  | .writeFile p _ _ => p

/-- Stage at which copyFile fails: os.Open on the source, os.Create on the
destination (after the parent MkdirAll), io.Copy midway, or the final
os.Stat/os.Chmod. -/
inductive CopyStage where
  | openFail
  | createFail
  | copyFail
  | chmodFail
deriving DecidableEq

/-- Injected I/O behaviour of one run: whether copyFile fails for a given
source path (and at which stage), and whether os.MkdirAll fails for a
given destination path. -/
structure IOEnv where
  copyFails : FsPath → Option CopyStage
  mkdirFails : FsPath → Bool

/-- Destination writes performed by one copyFile(src, dst) call, by
outcome stage; 493 is the literal 0755 of the source. -/
def copyFileOps (dst : FsPath) (c : List Nat) (m : Nat) : Option CopyStage → List FSOp
  | none => [.mkdirAll (dirOf dst) 493, .writeFile dst (some c) (some m)]
  | some .openFail => []
  | some .createFail => [.mkdirAll (dirOf dst) 493]
  | some .copyFail => [.mkdirAll (dirOf dst) 493, .writeFile dst none none]
  | some .chmodFail => [.mkdirAll (dirOf dst) 493, .writeFile dst (some c) none]

/-- Why a run failed (the program wraps these into error strings:
mkdirDest into "error creating destination directory", the others into
"error copying files"). -/
inductive FailCause where
  | walkStat (p : FsPath)
  | relErr (p : FsPath)
  | mkdirErr (p : FsPath)
  | copyErr (p : FsPath)
  | mkdirDest (p : FsPath)
deriving DecidableEq

/-- State threaded through the copy pass: the copiedFiles counter, the
destination writes so far, and the progress updates so far.  A progress
update is recorded as the pair (copiedFiles, totalFiles) from which the
code computes the ratio it passes to progress.SetValue. -/
structure CopyState where
  copied : Nat
  ops : List FSOp
  events : List (Nat × Nat)

/-- The walk function of the copy pass (part_000 lines 356-417): walk
errors abort; excluded entries are skipped exactly as in the counting
pass; a directory is mirrored by MkdirAll with its mode bits; a file is
copied via copyFile, after which copiedFiles is incremented and a progress
update is emitted.  copyAct is the part of the walk function after the
exclusion checks (part_000 lines 389-416).  The case of a broken entry
under WalkInput.ok cannot arise (walk1 passes statError for those). -/
def copyAct (homeDir dh : FsPath) (total : Nat) (env : IOEnv)
    (s : CopyState) (p : FsPath) (info : Entry) : CopyState × Option (WalkRet FailCause) :=
  match relP homeDir p with
  | none => (s, some (.fail (.relErr p)))
  | some rel =>
    let dst := goJoin dh rel
    match info with
    | .dir _ m _ =>
      if env.mkdirFails dst then (s, some (.fail (.mkdirErr dst)))
      else ({ s with ops := s.ops ++ [.mkdirAll dst m] }, none)
    | .file _ c m =>
      match env.copyFails p with
      | some st => ({ s with ops := s.ops ++ copyFileOps dst c m (some st) },
          some (.fail (.copyErr p)))
      | none =>
        ({ copied := s.copied + 1,
           ops := s.ops ++ copyFileOps dst c m none,
           events := s.events ++ [(s.copied + 1, total)] }, none)
    | .broken _ => (s, none)

def copyFn (homeDir dh a : FsPath) (total : Nat) (env : IOEnv)
    (s : CopyState) (p : FsPath) : WalkInput → CopyState × Option (WalkRet FailCause)
  | .statError => (s, some (.fail (.walkStat p)))
  | .ok info =>
    if hiddenName p then (s, if info.isDir then some .skipDir else none)
    else if sysCachePath p then (s, if info.isDir then some .skipDir else none)
    else if underDest a p then (s, if info.isDir then some .skipDir else none)
    else copyAct homeDir dh total env s p info

/-- Terminal observation of one synchronization run. -/
structure RunResult where
  total : Nat
  ops : List FSOp
  events : List (Nat × Nat)
  outcome : Option FailCause

/-- Embedding of copyHomeFolder(destPath, progress) of part_000.  homeDir
is the result of os.UserHomeDir (assumed absolute and clean, as on the
reference platform); t1 and t2 are the trees the two filepath.Walk calls
observe (the filesystem can change between the passes); env injects I/O
failures.  The destination root is filepath.Join(destPath, "home_backup"),
already absolute, so filepath.Abs leaves it unchanged.  The error returned
by the counting walk is discarded by the source (line 306).  The walk of
the copy pass starts after os.MkdirAll(destHomeDir, 0755); its result
error, when non-nil, is returned as the failure of the run. -/
def copyHomeFolder (homeDir destPath : FsPath) (t1 t2 : Entry) (env : IOEnv) : RunResult :=
  let destHomeDir := destPath ++ '/' :: ("home_backup".data)
  let absDestHomeDir := destHomeDir
  let total := (walk1 (countFn absDestHomeDir) homeDir t1 0).1
  if env.mkdirFails destHomeDir then
    { total := total, ops := [], events := [], outcome := some (.mkdirDest destHomeDir) }
  else
    let s0 : CopyState := ⟨0, [.mkdirAll destHomeDir 493], []⟩
    match walk1 (copyFn homeDir destHomeDir absDestHomeDir total env) homeDir t2 s0 with
    | (s, some (.fail e)) =>
      { total := total, ops := s.ops, events := s.events, outcome := some e }
    | (s, _) =>
      { total := total, ops := s.ops, events := s.events, outcome := none }

/- ------------------------------------------------------------------ -/
/- Destination filesystem semantics                                    -/
/- ------------------------------------------------------------------ -/

/-- State of the destination device: permission bits of the directories
created so far, and (content, permission bits) of the files written so
far, both as partial maps on paths. -/
structure DestFS where
  dirs : FsPath → Option Nat
  files : FsPath → Option (Option (List Nat) × Option Nat)

/-- The empty destination. -/
def DestFS.empty : DestFS := ⟨fun _ => none, fun _ => none⟩

/-- Effect of one destination write: os.MkdirAll does nothing when the
directory already exists (in particular it does not change its permission
bits); os.Create truncates, so a file write overwrites. -/
def applyOp (d : DestFS) : FSOp → DestFS
  | .mkdirAll q m =>
    if (d.dirs q).isSome then d
    else { d with dirs := fun x => if x = q then some m else d.dirs x }
  | .writeFile q c m =>
    { d with files := fun x => if x = q then some (c, m) else d.files x }

/-- Effect of a sequence of destination writes. -/
def applyOps (d : DestFS) (l : List FSOp) : DestFS := l.foldl applyOp d

/- ------------------------------------------------------------------ -/
/- Specification-level views of a run                                  -/
/- ------------------------------------------------------------------ -/

/-- A non-excluded regular file of the source tree: its absolute path,
its path relative to the walk root (['.'] for the root itself, as
filepath.Rel yields), its content and its permission bits. -/
structure FileRec where
  src : FsPath
  rel : FsPath
  content : List Nat
  mode : Nat
deriving DecidableEq

/-- A non-excluded directory of the source tree. -/
structure DirRec where
  src : FsPath
  rel : FsPath
  mode : Nat
deriving DecidableEq

mutual
/-- The non-excluded files of the subtree rooted at absolute path p with
relative path r, in walk pre-order, with exclusion pruning whole
subtrees. -/
def inclFiles (a : FsPath) : FsPath → FsPath → Entry → List FileRec
  | p, r, .file _ c m => if excluded a p then [] else [⟨p, r, c, m⟩]
  | _, _, .broken _ => []
  | p, r, .dir _ _ cs => if excluded a p then [] else inclFilesL a p r cs

def inclFilesL (a : FsPath) : FsPath → FsPath → List Entry → List FileRec
  | _, _, [] => []
  | p, r, c :: cs =>
    inclFiles a (p ++ '/' :: c.name) (childR r c.name) c ++ inclFilesL a p r cs
end

mutual
/-- The non-excluded directories of the subtree, in walk pre-order. -/
def inclDirs (a : FsPath) : FsPath → FsPath → Entry → List DirRec
  | _, _, .file _ _ _ => []
  | _, _, .broken _ => []
  | p, r, .dir _ m cs => if excluded a p then [] else ⟨p, r, m⟩ :: inclDirsL a p r cs

def inclDirsL (a : FsPath) : FsPath → FsPath → List Entry → List DirRec
  | _, _, [] => []
  | p, r, c :: cs =>
    inclDirs a (p ++ '/' :: c.name) (childR r c.name) c ++ inclDirsL a p r cs
end

mutual
/-- Relative paths of all non-excluded nodes (files and directories). -/
def inclRels (a : FsPath) : FsPath → FsPath → Entry → List FsPath
  | p, r, .file _ _ _ => if excluded a p then [] else [r]
  | _, _, .broken _ => []
  | p, r, .dir _ _ cs => if excluded a p then [] else r :: inclRelsL a p r cs

def inclRelsL (a : FsPath) : FsPath → FsPath → List Entry → List FsPath
  | _, _, [] => []
  | p, r, c :: cs =>
    inclRels a (p ++ '/' :: c.name) (childR r c.name) c ++ inclRelsL a p r cs
end

mutual
/-- Relative paths of all nodes of the subtree, without any exclusion. -/
def allRels : FsPath → Entry → List FsPath
  | r, .file _ _ _ => [r]
  | r, .broken _ => [r]
  | r, .dir _ _ cs => r :: allRelsL r cs

def allRelsL : FsPath → List Entry → List FsPath
  | _, [] => []
  | r, c :: cs => allRels (childR r c.name) c ++ allRelsL r cs
end

mutual
/-- Relative paths of the nodes the exclusion predicate removes: a node
whose own path is excluded together with (for a directory) its whole
subtree. -/
def exclRels (a : FsPath) : FsPath → FsPath → Entry → List FsPath
  | p, r, .file _ _ _ => if excluded a p then [r] else []
  | p, r, .broken _ => if excluded a p then [r] else []
  | p, r, .dir _ _ cs =>
    if excluded a p then r :: allRelsL r cs else exclRelsL a p r cs

def exclRelsL (a : FsPath) : FsPath → FsPath → List Entry → List FsPath
  | _, _, [] => []
  | p, r, c :: cs =>
    exclRels a (p ++ '/' :: c.name) (childR r c.name) c ++ exclRelsL a p r cs
end

mutual
/-- Destination writes a fully successful copy pass performs on the
subtree, in order: nothing for an excluded node; for a directory its
MkdirAll followed by the writes of its children; for a file the parent
MkdirAll and the file write performed by copyFile. -/
def specOps (dh a : FsPath) : FsPath → FsPath → Entry → List FSOp
  | p, r, .file _ c m =>
    if excluded a p then [] else copyFileOps (goJoin dh r) c m none
  | _, _, .broken _ => []
  | p, r, .dir _ m cs =>
    if excluded a p then []
    else .mkdirAll (goJoin dh r) m :: specOpsL dh a p r cs

def specOpsL (dh a : FsPath) : FsPath → FsPath → List Entry → List FSOp
  | _, _, [] => []
  | p, r, c :: cs =>
    specOps dh a (p ++ '/' :: c.name) (childR r c.name) c ++ specOpsL dh a p r cs
end

mutual
/-- No broken node is reachable in the copy pass: a broken node aborts the
pass wherever the walk reaches it (the error check precedes the exclusion
checks), and the walk reaches everything except the inside of excluded
directories. -/
def okTreeE (a : FsPath) : FsPath → Entry → Bool
  | _, .file _ _ _ => true
  | _, .broken _ => false
  | p, .dir _ _ cs => if excluded a p then true else okTreeL a p cs

def okTreeL (a : FsPath) : FsPath → List Entry → Bool
  | _, [] => true
  | p, c :: cs => okTreeE a (p ++ '/' :: c.name) c && okTreeL a p cs
end

/-- Progress updates emitted while copying k files when c files had
already been copied and the denominator is total. -/
def evRange (c k total : Nat) : List (Nat × Nat) :=
  (List.range k).map (fun i => (c + 1 + i, total))

mutual
/-- Mutual induction over trees and child lists. -/
theorem entry_ind {P : Entry → Prop} {Q : List Entry → Prop}
    (hfile : ∀ n c m, P (.file n c m))
    (hbroken : ∀ n, P (.broken n))
    (hdir : ∀ n m cs, Q cs → P (.dir n m cs))
    (hnil : Q [])
    (hcons : ∀ c cs, P c → Q cs → Q (c :: cs)) :
    ∀ t, P t
  | .file n c m => hfile n c m
  | .broken n => hbroken n
  | .dir n m cs => hdir n m cs (entry_list_ind hfile hbroken hdir hnil hcons cs)

theorem entry_list_ind {P : Entry → Prop} {Q : List Entry → Prop}
    (hfile : ∀ n c m, P (.file n c m))
    (hbroken : ∀ n, P (.broken n))
    (hdir : ∀ n m cs, Q cs → P (.dir n m cs))
    (hnil : Q [])
    (hcons : ∀ c cs, P c → Q cs → Q (c :: cs)) :
    ∀ l, Q l
  | [] => hnil
  | c :: cs => hcons c cs (entry_ind hfile hbroken hdir hnil hcons c)
      (entry_list_ind hfile hbroken hdir hnil hcons cs)
end

/- ------------------------------------------------------------------ -/
/- Path lemmas                                                         -/
/- ------------------------------------------------------------------ -/

theorem hasPfx_iff {s pre : FsPath} : hasPfx s pre = true ↔ pre <+: s := by
  simp [hasPfx]

theorem goJoin_ne_dot {d r : FsPath} (h : r ≠ ['.']) : goJoin d r = d ++ '/' :: r := by
  simp [goJoin, h]

theorem childR_ne_dot {r n : FsPath} (hn : n ≠ ['.']) : childR r n ≠ ['.'] := by
  by_cases hr : r = ['.']
  · simpa [childR, hr] using hn
  · intro h
    have hm : '/' ∈ childR r n := by simp [childR, hr]
    rw [h] at hm
    simp at hm

theorem goJoin_inj {d r₁ r₂ : FsPath} (h : goJoin d r₁ = goJoin d r₂) : r₁ = r₂ := by
  by_cases h1 : r₁ = ['.'] <;> by_cases h2 : r₂ = ['.']
  · rw [h1, h2]
  · rw [goJoin_ne_dot h2] at h
    simp [goJoin, h1] at h
  · rw [goJoin_ne_dot h1] at h
    simp [goJoin, h2] at h
  · rw [goJoin_ne_dot h1, goJoin_ne_dot h2] at h
    simpa using h

theorem goJoin_child {b r n : FsPath} (hn : n ≠ ['.']) :
    goJoin b r ++ '/' :: n = goJoin b (childR r n) := by
  rw [goJoin_ne_dot (childR_ne_dot hn)]
  by_cases hr : r = ['.']
  · simp [goJoin, childR, hr]
  · rw [goJoin_ne_dot hr]
    simp [childR, hr]

theorem relP_goJoin (b r : FsPath) : relP b (goJoin b r) = some r := by
  by_cases hr : r = ['.']
  · simp [relP, goJoin, hr]
  · have hne : b ++ '/' :: r ≠ b := by
      intro h
      have := congrArg List.length h
      simp at this
    have hpre : hasPfx (b ++ '/' :: r) (b ++ ['/']) = true := by
      rw [hasPfx_iff]
      have : b ++ '/' :: r = (b ++ ['/']) ++ r := by simp
      rw [this]
      exact List.prefix_append _ _
    simp only [relP, goJoin, hr, if_false, hne, if_neg hne, hpre, if_true]
    have : b ++ '/' :: r = (b ++ ['/']) ++ r := by simp
    rw [this]
    have hl : (b ++ ['/']).length = b.length + 1 := by simp
    rw [← hl]
    simp

theorem dropWhile_append_all {l₁ l₂ : List Char} {p : Char → Bool}
    (h : ∀ x ∈ l₁, p x = true) : (l₁ ++ l₂).dropWhile p = l₂.dropWhile p := by
  induction l₁ with
  | nil => rfl
  | cons c t ih =>
    simp only [List.cons_append, List.dropWhile_cons]
    rw [h c (by simp)]
    simp only [if_true]
    exact ih (fun x hx => h x (by simp [hx]))

theorem dirOf_append {d n : FsPath} (h : '/' ∉ n) : dirOf (d ++ '/' :: n) = d := by
  have hm : '/' ∈ d ++ '/' :: n := by simp
  simp only [dirOf, if_pos hm]
  have hrev : (d ++ '/' :: n).reverse = n.reverse ++ '/' :: d.reverse := by
    simp
  rw [hrev, dropWhile_append_all (fun x hx => by
    simp only [decide_eq_true_eq]
    intro he
    exact h (by rw [← he]; exact List.mem_reverse.mp hx))]
  simp

theorem dirOf_goJoin_child {dh r n : FsPath} (h1 : n ≠ ['.']) (h2 : '/' ∉ n) :
    dirOf (goJoin dh (childR r n)) = goJoin dh r := by
  rw [← goJoin_child h1]
  exact dirOf_append h2

theorem tokens_eq : ∀ {n₁ n₂ s₁ s₂ : FsPath}, '/' ∉ n₁ → '/' ∉ n₂ →
    (s₁ = [] ∨ ∃ u, s₁ = '/' :: u) → (s₂ = [] ∨ ∃ u, s₂ = '/' :: u) →
    n₁ ++ s₁ = n₂ ++ s₂ → n₁ = n₂ ∧ s₁ = s₂ := by
  intro n₁
  induction n₁ with
  | nil =>
    intro n₂ s₁ s₂ _ h2 hs1 _ h
    cases n₂ with
    | nil => exact ⟨rfl, h⟩
    | cons c m₂ =>
      exfalso
      rcases hs1 with h0 | ⟨u, hu⟩
      · rw [h0] at h
        exact absurd (congrArg List.length h) (by simp)
      · rw [hu] at h
        simp at h
        exact h2 (by rw [← h.1]; simp)
  | cons c₁ m₁ ih =>
    intro n₂ s₁ s₂ h1 h2 hs1 hs2 h
    cases n₂ with
    | nil =>
      exfalso
      rcases hs2 with h0 | ⟨u, hu⟩
      · rw [h0] at h
        exact absurd (congrArg List.length h) (by simp)
      · rw [hu] at h
        simp at h
        exact h1 (by rw [h.1]; simp)
    | cons c₂ m₂ =>
      simp only [List.cons_append, List.cons.injEq] at h
      obtain ⟨hc, hm⟩ := h
      have := ih (fun hx => h1 (by simp [hx])) (fun hx => h2 (by simp [hx])) hs1 hs2 hm
      exact ⟨by rw [hc, this.1], this.2⟩

/- ------------------------------------------------------------------ -/
/- Structure of the relative-path collections                          -/
/- ------------------------------------------------------------------ -/

theorem goodName_iff {n : FsPath} : goodName n = true ↔ (n ≠ ['.'] ∧ '/' ∉ n) := by
  simp [goodName]

theorem wfE_name {t : Entry} (h : wfE t = true) : goodName t.name = true := by
  cases t with
  | file n c m => simpa [wfE, Entry.name] using h
  | broken n => simpa [wfE, Entry.name] using h
  | dir n m cs =>
    simp only [wfE, Bool.and_eq_true] at h
    simpa [Entry.name] using h.1.1

theorem wfL_mem : ∀ {cs : List Entry} {c : Entry}, wfL cs = true → c ∈ cs → wfE c = true := by
  intro cs
  induction cs with
  | nil => intro c _ hc; simp at hc
  | cons d ds ih =>
    intro c hw hc
    simp only [wfL, Bool.and_eq_true] at hw
    rcases List.mem_cons.mp hc with rfl | hc
    · exact hw.1
    · exact ih hw.2 hc

theorem mem_allRelsL {r q : FsPath} {cs : List Entry} (h : q ∈ allRelsL r cs) :
    ∃ c ∈ cs, q ∈ allRels (childR r c.name) c := by
  induction cs with
  | nil => simp [allRelsL] at h
  | cons c cs ih =>
    simp only [allRelsL, List.mem_append] at h
    rcases h with h | h
    · exact ⟨c, by simp, h⟩
    · obtain ⟨c', hc', hq⟩ := ih h
      exact ⟨c', by simp [hc'], hq⟩

theorem mem_inclRelsL {a p r q : FsPath} {cs : List Entry} (h : q ∈ inclRelsL a p r cs) :
    ∃ c ∈ cs, q ∈ inclRels a (p ++ '/' :: c.name) (childR r c.name) c := by
  induction cs with
  | nil => simp [inclRelsL] at h
  | cons c cs ih =>
    simp only [inclRelsL, List.mem_append] at h
    rcases h with h | h
    · exact ⟨c, by simp, h⟩
    · obtain ⟨c', hc', hq⟩ := ih h
      exact ⟨c', by simp [hc'], hq⟩

theorem mem_exclRelsL {a p r q : FsPath} {cs : List Entry} (h : q ∈ exclRelsL a p r cs) :
    ∃ c ∈ cs, q ∈ exclRels a (p ++ '/' :: c.name) (childR r c.name) c := by
  induction cs with
  | nil => simp [exclRelsL] at h
  | cons c cs ih =>
    simp only [exclRelsL, List.mem_append] at h
    rcases h with h | h
    · exact ⟨c, by simp, h⟩
    · obtain ⟨c', hc', hq⟩ := ih h
      exact ⟨c', by simp [hc'], hq⟩

theorem inclRels_sub_all :
    ∀ t : Entry, ∀ a p r q : FsPath, q ∈ inclRels a p r t → q ∈ allRels r t := by
  have main := entry_ind
    (P := fun t => ∀ a p r q : FsPath, q ∈ inclRels a p r t → q ∈ allRels r t)
    (Q := fun l => ∀ a p r q : FsPath, q ∈ inclRelsL a p r l → q ∈ allRelsL r l)
    (by intro n c m a p r q h
        by_cases hex : excluded a p
        · simp [inclRels, hex] at h
        · simp [inclRels, hex] at h
          simp [allRels, h])
    (by intro n a p r q h; simp [inclRels] at h)
    (by intro n m cs ih a p r q h
        by_cases hex : excluded a p
        · simp [inclRels, hex] at h
        · simp only [inclRels, hex, if_false, Bool.false_eq_true, List.mem_cons] at h
          simp only [allRels, List.mem_cons]
          rcases h with h | h
          · exact Or.inl h
          · exact Or.inr (ih a p r q h))
    (by intro a p r q h; simp [inclRelsL] at h)
    (by intro c cs ihc ihl a p r q h
        simp only [inclRelsL, List.mem_append] at h
        simp only [allRelsL, List.mem_append]
        rcases h with h | h
        · exact Or.inl (ihc _ _ _ _ h)
        · exact Or.inr (ihl _ _ _ _ h))
  exact main

theorem exclRels_sub_all :
    ∀ t : Entry, ∀ a p r q : FsPath, q ∈ exclRels a p r t → q ∈ allRels r t := by
  have main := entry_ind
    (P := fun t => ∀ a p r q : FsPath, q ∈ exclRels a p r t → q ∈ allRels r t)
    (Q := fun l => ∀ a p r q : FsPath, q ∈ exclRelsL a p r l → q ∈ allRelsL r l)
    (by intro n c m a p r q h
        by_cases hex : excluded a p
        · simp [exclRels, hex] at h
          simp [allRels, h]
        · simp [exclRels, hex] at h)
    (by intro n a p r q h
        by_cases hex : excluded a p
        · simp [exclRels, hex] at h
          simp [allRels, h]
        · simp [exclRels, hex] at h)
    (by intro n m cs ih a p r q h
        by_cases hex : excluded a p <;> simp only [exclRels, hex, if_true, if_false] at h
        · simpa [allRels] using h
        · simp only [allRels, List.mem_cons]
          exact Or.inr (ih a p r q h))
    (by intro a p r q h; simp [exclRelsL] at h)
    (by intro c cs ihc ihl a p r q h
        simp only [exclRelsL, List.mem_append] at h
        simp only [allRelsL, List.mem_append]
        rcases h with h | h
        · exact Or.inl (ihc _ _ _ _ h)
        · exact Or.inr (ihl _ _ _ _ h))
  exact main

theorem allRels_shape :
    ∀ t : Entry, wfE t = true → ∀ r : FsPath, r ≠ ['.'] → ∀ q ∈ allRels r t,
      ∃ s, q = r ++ s ∧ (s = [] ∨ ∃ u, s = '/' :: u) := by
  have main := entry_ind
    (P := fun t => wfE t = true → ∀ r : FsPath, r ≠ ['.'] → ∀ q ∈ allRels r t,
      ∃ s, q = r ++ s ∧ (s = [] ∨ ∃ u, s = '/' :: u))
    (Q := fun l => wfL l = true → ∀ r : FsPath, r ≠ ['.'] → ∀ q ∈ allRelsL r l,
      ∃ u, q = r ++ '/' :: u)
    (by intro n c m _ r _ q h
        simp [allRels] at h
        exact ⟨[], by simp [h], Or.inl rfl⟩)
    (by intro n _ r _ q h
        simp [allRels] at h
        exact ⟨[], by simp [h], Or.inl rfl⟩)
    (by intro n m cs ih hw r hr q h
        simp only [wfE, Bool.and_eq_true] at hw
        simp only [allRels, List.mem_cons] at h
        rcases h with rfl | h
        · exact ⟨[], by simp, Or.inl rfl⟩
        · obtain ⟨u, hu⟩ := ih hw.2 r hr q h
          exact ⟨'/' :: u, hu, Or.inr ⟨u, rfl⟩⟩)
    (by intro _ r _ q h; simp [allRelsL] at h)
    (by intro c cs ihc ihl hw r hr q h
        simp only [wfL, Bool.and_eq_true] at hw
        simp only [allRelsL, List.mem_append] at h
        rcases h with h | h
        · have hg := goodName_iff.mp (wfE_name hw.1)
          obtain ⟨s, hq, _⟩ := ihc hw.1 (childR r c.name) (childR_ne_dot hg.1) q h
          by_cases hrr : r = ['.']
          · exact absurd hrr hr
          · refine ⟨c.name ++ s, ?_⟩
            rw [hq]
            simp [childR, hrr]
        · exact ihl hw.2 r hr q h)
  exact main

theorem allRels_ne_dot :
    ∀ t : Entry, wfE t = true → ∀ r : FsPath, r ≠ ['.'] → ∀ q ∈ allRels r t, q ≠ ['.'] := by
  have main := entry_ind
    (P := fun t => wfE t = true → ∀ r : FsPath, r ≠ ['.'] → ∀ q ∈ allRels r t, q ≠ ['.'])
    (Q := fun l => wfL l = true → ∀ r q : FsPath, q ∈ allRelsL r l → q ≠ ['.'])
    (by intro n c m _ r hr q h; simp [allRels] at h; simpa [h] using hr)
    (by intro n _ r hr q h; simp [allRels] at h; simpa [h] using hr)
    (by intro n m cs ih hw r hr q h
        simp only [wfE, Bool.and_eq_true] at hw
        simp only [allRels, List.mem_cons] at h
        rcases h with rfl | h
        · exact hr
        · exact ih hw.2 r q h)
    (by intro _ r q h; simp [allRelsL] at h)
    (by intro c cs ihc ihl hw r q h
        simp only [wfL, Bool.and_eq_true] at hw
        simp only [allRelsL, List.mem_append] at h
        rcases h with h | h
        · have hg := goodName_iff.mp (wfE_name hw.1)
          exact ihc hw.1 (childR r c.name) (childR_ne_dot hg.1) q h
        · exact ihl hw.2 r q h)
  exact main

theorem self_notin_child {r n : FsPath} {c : Entry} (hw : wfE c = true)
    (hg : goodName n = true) : r ∉ allRels (childR r n) c := by
  intro hmem
  have hg' := goodName_iff.mp hg
  obtain ⟨s, hq, hs⟩ := allRels_shape c hw _ (childR_ne_dot hg'.1) r hmem
  by_cases hr : r = ['.']
  · subst hr
    rw [show childR ['.'] n = n from by simp [childR]] at hq
    rcases hs with rfl | ⟨u, rfl⟩
    · simp at hq
      exact hg'.1 hq.symm
    · have hsl : '/' ∈ (['.'] : FsPath) := by rw [hq]; simp
      simp at hsl
  · rw [show childR r n = r ++ '/' :: n from by simp [childR, hr]] at hq
    have := congrArg List.length hq
    simp at this

theorem sibling_rels_ne {r n₁ n₂ q : FsPath} {c₁ c₂ : Entry}
    (hw₁ : wfE c₁ = true) (hw₂ : wfE c₂ = true)
    (hg₁ : goodName n₁ = true) (hg₂ : goodName n₂ = true) (hne : n₁ ≠ n₂)
    (h₁ : q ∈ allRels (childR r n₁) c₁) (h₂ : q ∈ allRels (childR r n₂) c₂) : False := by
  have hg₁' := goodName_iff.mp hg₁
  have hg₂' := goodName_iff.mp hg₂
  obtain ⟨s₁, hq₁, hs₁⟩ := allRels_shape c₁ hw₁ _ (childR_ne_dot hg₁'.1) q h₁
  obtain ⟨s₂, hq₂, hs₂⟩ := allRels_shape c₂ hw₂ _ (childR_ne_dot hg₂'.1) q h₂
  by_cases hr : r = ['.']
  · subst hr
    rw [show childR ['.'] n₁ = n₁ from by simp [childR]] at hq₁
    rw [show childR ['.'] n₂ = n₂ from by simp [childR]] at hq₂
    have := tokens_eq hg₁'.2 hg₂'.2 hs₁ hs₂ (hq₁ ▸ hq₂)
    exact hne this.1
  · rw [show childR r n₁ = r ++ '/' :: n₁ from by simp [childR, hr]] at hq₁
    rw [show childR r n₂ = r ++ '/' :: n₂ from by simp [childR, hr]] at hq₂
    have hq : r ++ '/' :: (n₁ ++ s₁) = r ++ '/' :: (n₂ ++ s₂) := by
      have e₁ : (r ++ '/' :: n₁) ++ s₁ = r ++ '/' :: (n₁ ++ s₁) := by simp
      have e₂ : (r ++ '/' :: n₂) ++ s₂ = r ++ '/' :: (n₂ ++ s₂) := by simp
      rw [← e₁, ← e₂, ← hq₁, ← hq₂]
    have hq' : n₁ ++ s₁ = n₂ ++ s₂ := by
      have := List.append_cancel_left hq
      simpa using this
    exact hne (tokens_eq hg₁'.2 hg₂'.2 hs₁ hs₂ hq').1

theorem excl_incl_disj :
    ∀ t : Entry, wfE t = true → ∀ a p r q : FsPath,
      q ∈ exclRels a p r t → q ∉ inclRels a p r t := by
  have main := entry_ind
    (P := fun t => wfE t = true → ∀ a p r q : FsPath,
      q ∈ exclRels a p r t → q ∉ inclRels a p r t)
    (Q := fun l => wfL l = true → ((l.map Entry.name).Nodup) → ∀ a p r q : FsPath,
      q ∈ exclRelsL a p r l → q ∉ inclRelsL a p r l)
    (by intro n c m _ a p r q h hin
        by_cases hex : excluded a p
        · simp [inclRels, hex] at hin
        · simp [exclRels, hex] at h)
    (by intro n _ a p r q h hin
        simp [inclRels] at hin)
    (by intro n m cs ih hw a p r q h hin
        simp only [wfE, Bool.and_eq_true, decide_eq_true_eq] at hw
        by_cases hex : excluded a p
        · simp [inclRels, hex] at hin
        · simp only [exclRels, hex, if_false, Bool.false_eq_true] at h
          simp only [inclRels, hex, if_false, Bool.false_eq_true, List.mem_cons] at hin
          rcases hin with rfl | hin
          · obtain ⟨c, hc, hq⟩ := mem_exclRelsL h
            have hsub := exclRels_sub_all c _ _ _ _ hq
            exact self_notin_child (wfL_mem hw.2 hc) (wfE_name (wfL_mem hw.2 hc)) hsub
          · exact ih hw.2 hw.1.2 a p r q h hin)
    (by intro _ _ a p r q h _; simp [exclRelsL] at h)
    (by intro c cs ihc ihl hw hnd a p r q h hin
        simp only [wfL, Bool.and_eq_true] at hw
        simp only [List.map_cons, List.nodup_cons] at hnd
        simp only [exclRelsL, List.mem_append] at h
        simp only [inclRelsL, List.mem_append] at hin
        rcases h with h | h <;> rcases hin with hin | hin
        · exact ihc hw.1 a _ _ q h hin
        · obtain ⟨c', hc', hq'⟩ := mem_inclRelsL hin
          have h1 := exclRels_sub_all c _ _ _ _ h
          have h2 := inclRels_sub_all c' _ _ _ _ hq'
          have hnn : c.name ≠ c'.name := by
            intro he
            exact hnd.1 (he ▸ List.mem_map_of_mem Entry.name hc')
          exact sibling_rels_ne hw.1 (wfL_mem hw.2 hc') (wfE_name hw.1)
            (wfE_name (wfL_mem hw.2 hc')) hnn h1 h2
        · obtain ⟨c', hc', hq'⟩ := mem_exclRelsL h
          have h1 := exclRels_sub_all c' _ _ _ _ hq'
          have h2 := inclRels_sub_all c _ _ _ _ hin
          have hnn : c'.name ≠ c.name := by
            intro he
            exact hnd.1 (he ▸ List.mem_map_of_mem Entry.name hc')
          exact sibling_rels_ne (wfL_mem hw.2 hc') hw.1 (wfE_name (wfL_mem hw.2 hc'))
            (wfE_name hw.1) hnn h1 h2
        · exact ihl hw.2 hnd.2 a p r q h hin)
  exact main

theorem inclFiles_rel_mem :
    ∀ t : Entry, ∀ (a p r : FsPath) (f : FileRec),
      f ∈ inclFiles a p r t → f.rel ∈ inclRels a p r t := by
  have main := entry_ind
    (P := fun t => ∀ (a p r : FsPath) (f : FileRec),
      f ∈ inclFiles a p r t → f.rel ∈ inclRels a p r t)
    (Q := fun l => ∀ (a p r : FsPath) (f : FileRec),
      f ∈ inclFilesL a p r l → f.rel ∈ inclRelsL a p r l)
    (by intro n c m a p r f h
        by_cases hex : excluded a p
        · simp [inclFiles, hex] at h
        · simp [inclFiles, hex] at h
          simp [inclRels, hex, h])
    (by intro n a p r f h; simp [inclFiles] at h)
    (by intro n m cs ih a p r f h
        by_cases hex : excluded a p
        · simp [inclFiles, hex] at h
        · simp only [inclFiles, hex, if_false, Bool.false_eq_true] at h
          simp only [inclRels, hex, if_false, Bool.false_eq_true, List.mem_cons]
          exact Or.inr (ih a p r f h))
    (by intro a p r f h; simp [inclFilesL] at h)
    (by intro c cs ihc ihl a p r f h
        simp only [inclFilesL, List.mem_append] at h
        simp only [inclRelsL, List.mem_append]
        rcases h with h | h
        · exact Or.inl (ihc _ _ _ _ h)
        · exact Or.inr (ihl _ _ _ _ h))
  exact main

theorem inclDirs_rel_mem :
    ∀ t : Entry, ∀ (a p r : FsPath) (d : DirRec),
      d ∈ inclDirs a p r t → d.rel ∈ inclRels a p r t := by
  have main := entry_ind
    (P := fun t => ∀ (a p r : FsPath) (d : DirRec),
      d ∈ inclDirs a p r t → d.rel ∈ inclRels a p r t)
    (Q := fun l => ∀ (a p r : FsPath) (d : DirRec),
      d ∈ inclDirsL a p r l → d.rel ∈ inclRelsL a p r l)
    (by intro n c m a p r d h; simp [inclDirs] at h)
    (by intro n a p r d h; simp [inclDirs] at h)
    (by intro n m cs ih a p r d h
        by_cases hex : excluded a p
        · simp [inclDirs, hex] at h
        · simp only [inclDirs, hex, if_false, Bool.false_eq_true, List.mem_cons] at h
          simp only [inclRels, hex, if_false, Bool.false_eq_true, List.mem_cons]
          rcases h with rfl | h
          · exact Or.inl rfl
          · exact Or.inr (ih a p r d h))
    (by intro a p r d h; simp [inclDirsL] at h)
    (by intro c cs ihc ihl a p r d h
        simp only [inclDirsL, List.mem_append] at h
        simp only [inclRelsL, List.mem_append]
        rcases h with h | h
        · exact Or.inl (ihc _ _ _ _ h)
        · exact Or.inr (ihl _ _ _ _ h))
  exact main

theorem inclFiles_src :
    ∀ t : Entry, wfE t = true → ∀ (a h p r : FsPath), p = goJoin h r →
      ∀ f ∈ inclFiles a p r t, f.src = goJoin h f.rel := by
  have main := entry_ind
    (P := fun t => wfE t = true → ∀ (a h p r : FsPath), p = goJoin h r →
      ∀ f ∈ inclFiles a p r t, f.src = goJoin h f.rel)
    (Q := fun l => wfL l = true → ∀ (a h p r : FsPath), p = goJoin h r →
      ∀ f ∈ inclFilesL a p r l, f.src = goJoin h f.rel)
    (by intro n c m _ a h p r hp f hf
        by_cases hex : excluded a p
        · simp [inclFiles, hex] at hf
        · simp [inclFiles, hex] at hf
          rw [hf]
          exact hp)
    (by intro n _ a h p r _ f hf; simp [inclFiles] at hf)
    (by intro n m cs ih hw a h p r hp f hf
        simp only [wfE, Bool.and_eq_true] at hw
        by_cases hex : excluded a p
        · simp [inclFiles, hex] at hf
        · simp only [inclFiles, hex, if_false, Bool.false_eq_true] at hf
          exact ih hw.2 a h p r hp f hf)
    (by intro _ a h p r _ f hf; simp [inclFilesL] at hf)
    (by intro c cs ihc ihl hw a h p r hp f hf
        simp only [wfL, Bool.and_eq_true] at hw
        simp only [inclFilesL, List.mem_append] at hf
        rcases hf with hf | hf
        · have hg := goodName_iff.mp (wfE_name hw.1)
          have hp' : p ++ '/' :: c.name = goJoin h (childR r c.name) := by
            rw [hp]; exact goJoin_child hg.1
          exact ihc hw.1 a h _ _ hp' f hf
        · exact ihl hw.2 a h p r hp f hf)
  exact main

theorem inclDirs_src :
    ∀ t : Entry, wfE t = true → ∀ (a h p r : FsPath), p = goJoin h r →
      ∀ d ∈ inclDirs a p r t, d.src = goJoin h d.rel := by
  have main := entry_ind
    (P := fun t => wfE t = true → ∀ (a h p r : FsPath), p = goJoin h r →
      ∀ d ∈ inclDirs a p r t, d.src = goJoin h d.rel)
    (Q := fun l => wfL l = true → ∀ (a h p r : FsPath), p = goJoin h r →
      ∀ d ∈ inclDirsL a p r l, d.src = goJoin h d.rel)
    (by intro n c m _ a h p r _ d hd; simp [inclDirs] at hd)
    (by intro n _ a h p r _ d hd; simp [inclDirs] at hd)
    (by intro n m cs ih hw a h p r hp d hd
        simp only [wfE, Bool.and_eq_true] at hw
        by_cases hex : excluded a p
        · simp [inclDirs, hex] at hd
        · simp only [inclDirs, hex, if_false, Bool.false_eq_true, List.mem_cons] at hd
          rcases hd with rfl | hd
          · exact hp
          · exact ih hw.2 a h p r hp d hd)
    (by intro _ a h p r _ d hd; simp [inclDirsL] at hd)
    (by intro c cs ihc ihl hw a h p r hp d hd
        simp only [wfL, Bool.and_eq_true] at hw
        simp only [inclDirsL, List.mem_append] at hd
        rcases hd with hd | hd
        · have hg := goodName_iff.mp (wfE_name hw.1)
          have hp' : p ++ '/' :: c.name = goJoin h (childR r c.name) := by
            rw [hp]; exact goJoin_child hg.1
          exact ihc hw.1 a h _ _ hp' d hd
        · exact ihl hw.2 a h p r hp d hd)
  exact main

/- ------------------------------------------------------------------ -/
/- Walk lemmas: the counting pass                                      -/
/- ------------------------------------------------------------------ -/

theorem countFn_ok (a p : FsPath) (n : Nat) (e : Entry) :
    countFn a n p (.ok e) =
      if excluded a p then (n, if e.isDir then some .skipDir else none)
      else (if e.isDir then n else n + 1, none) := by
  by_cases h1 : hiddenName p
  · simp [countFn, excluded, h1]
  · by_cases h2 : sysCachePath p
    · simp [countFn, excluded, h1, h2]
    · by_cases h3 : underDest a p
      · simp [countFn, excluded, h1, h2, h3]
      · simp [countFn, excluded, h1, h2, h3]

theorem copyFn_ok (h dh a : FsPath) (total : Nat) (env : IOEnv)
    (s : CopyState) (p : FsPath) (e : Entry) :
    copyFn h dh a total env s p (.ok e) =
      if excluded a p then (s, if e.isDir then some .skipDir else none)
      else copyAct h dh total env s p e := by
  by_cases h1 : hiddenName p
  · simp [copyFn, excluded, h1]
  · by_cases h2 : sysCachePath p
    · simp [copyFn, excluded, h1, h2]
    · by_cases h3 : underDest a p
      · simp [copyFn, excluded, h1, h2, h3]
      · simp [copyFn, excluded, h1, h2, h3]

theorem evRange_zero (c total : Nat) : evRange c 0 total = [] := rfl

theorem evRange_one (c total : Nat) : evRange c 1 total = [(c + 1, total)] := by
  simp [evRange, List.range_succ]

theorem evRange_add (c k1 k2 total : Nat) :
    evRange c (k1 + k2) total = evRange c k1 total ++ evRange (c + k1) k2 total := by
  unfold evRange
  rw [List.range_add, List.map_append, List.map_map]
  congr 1
  apply List.map_congr_left
  intro i _
  simp
  omega

/-- The counting pass walks any tree to completion, never returns an
error, and its tally grows by exactly the number of non-excluded,
non-directory entries of the subtree: excluded entries and entries inside
excluded (pruned) directories are not counted, walk errors are skipped. -/
theorem walk_count :
    ∀ t : Entry, ∀ (a p r : FsPath) (n : Nat),
      walk1 (countFn a) p t n = (n + (inclFiles a p r t).length, none) := by
  have main := entry_ind
    (P := fun t => ∀ (a p r : FsPath) (n : Nat),
      walk1 (countFn a) p t n = (n + (inclFiles a p r t).length, none))
    (Q := fun l => ∀ (a p r : FsPath) (n : Nat),
      walkList (countFn a) p l n = (n + (inclFilesL a p r l).length, none))
    (by intro nm c m a p r n
        by_cases hex : excluded a p
        · simp [walk1, countFn_ok, hex, inclFiles, Entry.isDir]
        · simp [walk1, countFn_ok, hex, inclFiles, Entry.isDir])
    (by intro nm a p r n
        simp [walk1, countFn, inclFiles])
    (by intro nm m cs ih a p r n
        by_cases hex : excluded a p
        · simp [walk1, countFn_ok, hex, inclFiles, Entry.isDir]
        · have e1 : countFn a n p (.ok (.dir nm m cs)) = (n, none) := by
            simp [countFn_ok, hex, Entry.isDir]
          simp only [walk1, e1, inclFiles, hex, if_false, Bool.false_eq_true]
          exact ih a p r n)
    (by intro a p r n; simp [walkList, inclFilesL])
    (by intro c cs ihc ihl a p r n
        have hc := ihc a (p ++ '/' :: c.name) (childR r c.name) n
        simp only [walkList, hc, inclFilesL]
        rw [ihl a p r]
        simp [Nat.add_assoc])
  exact main

/- ------------------------------------------------------------------ -/
/- Walk lemmas: the copy pass                                          -/
/- ------------------------------------------------------------------ -/

/-- A fully successful copy pass over a subtree: when no reachable entry
is broken, copyFile succeeds on every non-excluded file and MkdirAll
succeeds on every mirrored directory, the walk returns nil, performs
exactly the specification writes in pre-order, and emits one progress
update per non-excluded file with consecutive counter values. -/
theorem walk_copy_ok :
    ∀ t : Entry, wfE t = true →
      ∀ (a h dh : FsPath) (total : Nat) (env : IOEnv) (p r : FsPath) (s : CopyState),
      p = goJoin h r →
      okTreeE a p t = true →
      (∀ f ∈ inclFiles a p r t, env.copyFails f.src = none) →
      (∀ d ∈ inclDirs a p r t, env.mkdirFails (goJoin dh d.rel) = false) →
      walk1 (copyFn h dh a total env) p t s =
        ({ copied := s.copied + (inclFiles a p r t).length,
           ops := s.ops ++ specOps dh a p r t,
           events := s.events ++ evRange s.copied (inclFiles a p r t).length total }, none) := by
  have main := entry_ind
    (P := fun t => wfE t = true →
      ∀ (a h dh : FsPath) (total : Nat) (env : IOEnv) (p r : FsPath) (s : CopyState),
      p = goJoin h r →
      okTreeE a p t = true →
      (∀ f ∈ inclFiles a p r t, env.copyFails f.src = none) →
      (∀ d ∈ inclDirs a p r t, env.mkdirFails (goJoin dh d.rel) = false) →
      walk1 (copyFn h dh a total env) p t s =
        ({ copied := s.copied + (inclFiles a p r t).length,
           ops := s.ops ++ specOps dh a p r t,
           events := s.events ++ evRange s.copied (inclFiles a p r t).length total }, none))
    (Q := fun l => wfL l = true →
      ∀ (a h dh : FsPath) (total : Nat) (env : IOEnv) (p r : FsPath) (s : CopyState),
      p = goJoin h r →
      okTreeL a p l = true →
      (∀ f ∈ inclFilesL a p r l, env.copyFails f.src = none) →
      (∀ d ∈ inclDirsL a p r l, env.mkdirFails (goJoin dh d.rel) = false) →
      walkList (copyFn h dh a total env) p l s =
        ({ copied := s.copied + (inclFilesL a p r l).length,
           ops := s.ops ++ specOpsL dh a p r l,
           events := s.events ++ evRange s.copied (inclFilesL a p r l).length total }, none))
    ?_ ?_ ?_ ?_ ?_
  · exact fun t hw a h dh total env p r s => main t hw a h dh total env p r s
  · intro nm c m _ a h dh total env p r s hp hok hcf _
    obtain ⟨c0, o0, v0⟩ := s
    by_cases hex : excluded a p
    · simp [walk1, copyFn_ok, hex, Entry.isDir, inclFiles, specOps, evRange_zero]
    · have hf : env.copyFails p = none := by
        have := hcf ⟨p, r, c, m⟩ (by simp [inclFiles, hex])
        simpa using this
      simp only [walk1, copyFn_ok, hex, if_false, Bool.false_eq_true, copyAct, hp,
        relP_goJoin, hf, inclFiles, specOps, evRange_one]
      simp [← hp, hf, evRange_one, inclFiles, hex, specOps]
  · intro nm hw a h dh total env p r s hp hok hcf hmk
    simp [okTreeE] at hok
  · intro nm m cs ih hw a h dh total env p r s hp hok hcf hmk
    simp only [wfE, Bool.and_eq_true] at hw
    obtain ⟨c0, o0, v0⟩ := s
    by_cases hex : excluded a p
    · simp [walk1, copyFn_ok, hex, Entry.isDir, inclFiles, specOps, evRange_zero]
    · have hexf : excluded a p = false := by simpa using hex
      have hself : env.mkdirFails (goJoin dh r) = false := by
        have := hmk ⟨p, r, m⟩ (by simp [inclDirs, hex])
        simpa using this
      have e1 : copyFn h dh a total env ⟨c0, o0, v0⟩ p (.ok (.dir nm m cs)) =
          ({ copied := c0, ops := o0 ++ [.mkdirAll (goJoin dh r) m], events := v0 }, none) := by
        simp only [copyFn_ok, hexf, if_false, Bool.false_eq_true, copyAct, hp, relP_goJoin]
        simp [← hp, hself, hexf]
      simp only [walk1, e1]
      have hokl : okTreeL a p cs = true := by
        simpa [okTreeE, hexf] using hok
      have hcf' : ∀ f ∈ inclFilesL a p r cs, env.copyFails f.src = none := by
        intro f hf
        exact hcf f (by simpa [inclFiles, hex] using hf)
      have hmk' : ∀ d ∈ inclDirsL a p r cs, env.mkdirFails (goJoin dh d.rel) = false := by
        intro d hd
        exact hmk d (by simp [inclDirs, hex, hd])
      rw [ih hw.2 a h dh total env p r _ hp hokl hcf' hmk']
      simp only [inclFiles, hex, if_false, Bool.false_eq_true, specOps]
      simp [List.append_assoc]
  · intro _ a h dh total env p r s _ _ _ _
    obtain ⟨c0, o0, v0⟩ := s
    simp [walkList, inclFilesL, specOpsL, evRange_zero]
  · intro c cs ihc ihl hw a h dh total env p r s hp hok hcf hmk
    simp only [wfL, Bool.and_eq_true] at hw
    obtain ⟨c0, o0, v0⟩ := s
    have hg := goodName_iff.mp (wfE_name hw.1)
    have hp' : p ++ '/' :: c.name = goJoin h (childR r c.name) := by
      rw [hp]; exact goJoin_child hg.1
    simp only [okTreeL, Bool.and_eq_true] at hok
    have hcfc : ∀ f ∈ inclFiles a (p ++ '/' :: c.name) (childR r c.name) c,
        env.copyFails f.src = none := by
      intro f hf
      exact hcf f (by simp [inclFilesL, hf])
    have hmkc : ∀ d ∈ inclDirs a (p ++ '/' :: c.name) (childR r c.name) c,
        env.mkdirFails (goJoin dh d.rel) = false := by
      intro d hd
      exact hmk d (by simp [inclDirsL, hd])
    have hc := ihc hw.1 a h dh total env (p ++ '/' :: c.name) (childR r c.name)
      ⟨c0, o0, v0⟩ hp' hok.1 hcfc hmkc
    simp only [walkList, hc]
    have hcf' : ∀ f ∈ inclFilesL a p r cs, env.copyFails f.src = none := by
      intro f hf
      exact hcf f (by simp [inclFilesL, hf])
    have hmk' : ∀ d ∈ inclDirsL a p r cs, env.mkdirFails (goJoin dh d.rel) = false := by
      intro d hd
      exact hmk d (by simp [inclDirsL, hd])
    rw [ihl hw.2 a h dh total env p r _ hp hok.2 hcf' hmk']
    simp only [inclFilesL, specOpsL, List.length_append]
    simp [Prod.ext_iff, CopyState.mk.injEq, List.append_assoc, Nat.add_assoc, evRange_add]

/-- The copy-pass walk function never produces SkipDir for a
non-directory, so the walk never returns SkipDir. -/
theorem walk_copy_no_skip :
    ∀ t : Entry, ∀ (h dh a : FsPath) (total : Nat) (env : IOEnv) (p : FsPath) (s : CopyState),
      (walk1 (copyFn h dh a total env) p t s).2 ≠ some .skipDir := by
  have main := entry_ind
    (P := fun t => ∀ (h dh a : FsPath) (total : Nat) (env : IOEnv) (p : FsPath) (s : CopyState),
      (walk1 (copyFn h dh a total env) p t s).2 ≠ some .skipDir)
    (Q := fun l => ∀ (h dh a : FsPath) (total : Nat) (env : IOEnv) (p : FsPath) (s : CopyState),
      (walkList (copyFn h dh a total env) p l s).2 ≠ some .skipDir)
    (by intro nm c m h dh a total env p s
        by_cases hex : excluded a p
        · simp [walk1, copyFn_ok, hex, Entry.isDir]
        · rcases hrel : relP h p with _ | rel
          · simp [walk1, copyFn_ok, hex, copyAct, hrel]
          · rcases henv : env.copyFails p with _ | st <;>
              simp [walk1, copyFn_ok, hex, copyAct, hrel, henv])
    (by intro nm h dh a total env p s
        simp [walk1, copyFn])
    (by intro nm m cs ih h dh a total env p s
        by_cases hex : excluded a p
        · simp [walk1, copyFn_ok, hex, Entry.isDir]
        · rcases hrel : relP h p with _ | rel
          · simp [walk1, copyFn_ok, hex, copyAct, hrel]
          · by_cases hmf : env.mkdirFails (goJoin dh rel)
            · simp [walk1, copyFn_ok, hex, copyAct, hrel, hmf]
            · simp only [walk1, copyFn_ok, hex, if_false, Bool.false_eq_true, copyAct, hrel,
                hmf, ite_false]
              exact ih h dh a total env p _)
    (by intro h dh a total env p s; simp [walkList])
    (by intro c cs ihc ihl h dh a total env p s
        rcases hres : walk1 (copyFn h dh a total env) (p ++ '/' :: c.name) c s with ⟨s1, r1⟩
        match r1 with
        | none => simp only [walkList, hres]; exact ihl h dh a total env p s1
        | some .skipDir =>
          exact absurd (by rw [hres]) (ihc h dh a total env (p ++ '/' :: c.name) s)
        | some (.fail e) => simp [walkList, hres])
  exact main

/-- Converse of the success characterization: if the copy-pass walk over a
subtree returns nil, then no broken entry was reachable, copyFile
succeeded on every non-excluded file and MkdirAll succeeded on every
mirrored directory. -/
theorem walk_copy_none_imp :
    ∀ t : Entry, wfE t = true →
      ∀ (a h dh : FsPath) (total : Nat) (env : IOEnv) (p r : FsPath) (s : CopyState),
      p = goJoin h r →
      (walk1 (copyFn h dh a total env) p t s).2 = none →
      okTreeE a p t = true ∧ (∀ f ∈ inclFiles a p r t, env.copyFails f.src = none) ∧
      (∀ d ∈ inclDirs a p r t, env.mkdirFails (goJoin dh d.rel) = false) := by
  have main := entry_ind
    (P := fun t => wfE t = true →
      ∀ (a h dh : FsPath) (total : Nat) (env : IOEnv) (p r : FsPath) (s : CopyState),
      p = goJoin h r →
      (walk1 (copyFn h dh a total env) p t s).2 = none →
      okTreeE a p t = true ∧ (∀ f ∈ inclFiles a p r t, env.copyFails f.src = none) ∧
      (∀ d ∈ inclDirs a p r t, env.mkdirFails (goJoin dh d.rel) = false))
    (Q := fun l => wfL l = true →
      ∀ (a h dh : FsPath) (total : Nat) (env : IOEnv) (p r : FsPath) (s : CopyState),
      p = goJoin h r →
      (walkList (copyFn h dh a total env) p l s).2 = none →
      okTreeL a p l = true ∧ (∀ f ∈ inclFilesL a p r l, env.copyFails f.src = none) ∧
      (∀ d ∈ inclDirsL a p r l, env.mkdirFails (goJoin dh d.rel) = false))
    ?_ ?_ ?_ ?_ ?_
  · exact fun t ht a h dh total env p r s => main t ht a h dh total env p r s
  · intro nm c m _ a h dh total env p r s hp hnone
    by_cases hex : excluded a p
    · refine ⟨by simp [okTreeE], ?_, by simp [inclDirs]⟩
      intro f hf
      simp [inclFiles, hex] at hf
    · rcases henv : env.copyFails p with _ | st
      · refine ⟨by simp [okTreeE], ?_, by simp [inclDirs]⟩
        intro f hf
        simp [inclFiles, hex] at hf
        rw [hf]
        simpa using henv
      · have hexf : excluded a p = false := by simpa using hex
        rw [hp] at henv hexf
        simp [walk1, copyFn_ok, hexf, copyAct, hp, relP_goJoin, henv] at hnone
  · intro nm _ a h dh total env p r s _ hnone
    simp [walk1, copyFn] at hnone
  · intro nm m cs ih hw a h dh total env p r s hp hnone
    simp only [wfE, Bool.and_eq_true] at hw
    by_cases hex : excluded a p
    · refine ⟨by simp [okTreeE, hex], ?_, ?_⟩
      · intro f hf; simp [inclFiles, hex] at hf
      · intro d hd; simp [inclDirs, hex] at hd
    · have hexf : excluded a p = false := by simpa using hex
      by_cases hmf : env.mkdirFails (goJoin dh r)
      · have hexf2 := hexf
        rw [hp] at hexf2
        simp [walk1, copyFn_ok, hexf2, copyAct, hp, relP_goJoin, hmf] at hnone
      · have hmff : env.mkdirFails (goJoin dh r) = false := by simpa using hmf
        have e1 : copyFn h dh a total env s p (.ok (.dir nm m cs)) =
            ({ s with ops := s.ops ++ [.mkdirAll (goJoin dh r) m] }, none) := by
          simp only [copyFn_ok, hexf, if_false, Bool.false_eq_true, copyAct, hp, relP_goJoin]
          simp [← hp, hexf, hmff]
        rw [show (walk1 (copyFn h dh a total env) p (.dir nm m cs) s) =
          walkList (copyFn h dh a total env) p cs
            { s with ops := s.ops ++ [.mkdirAll (goJoin dh r) m] } from by
            simp only [walk1, e1]] at hnone
        obtain ⟨hok, hcf, hmk⟩ := ih hw.2 a h dh total env p r _ hp hnone
        refine ⟨by simp [okTreeE, hexf, hok], ?_, ?_⟩
        · intro f hf
          exact hcf f (by simpa [inclFiles, hexf] using hf)
        · intro d hd
          simp only [inclDirs, hexf, if_false, Bool.false_eq_true, List.mem_cons] at hd
          rcases hd with rfl | hd
          · simpa using hmf
          · exact hmk d hd
  · intro _ a h dh total env p r s _ _
    exact ⟨by simp [okTreeL], by intro f hf; simp [inclFilesL] at hf,
      by intro d hd; simp [inclDirsL] at hd⟩
  · intro c cs ihc ihl hw a h dh total env p r s hp hnone
    simp only [wfL, Bool.and_eq_true] at hw
    have hg := goodName_iff.mp (wfE_name hw.1)
    have hp' : p ++ '/' :: c.name = goJoin h (childR r c.name) := by
      rw [hp]; exact goJoin_child hg.1
    rcases hres : walk1 (copyFn h dh a total env) (p ++ '/' :: c.name) c s with ⟨s1, r1⟩
    match r1 with
    | none =>
      rw [show (walkList (copyFn h dh a total env) p (c :: cs) s) =
        walkList (copyFn h dh a total env) p cs s1 from by
          simp only [walkList, hres]] at hnone
      obtain ⟨hok1, hcf1, hmk1⟩ := ihc hw.1 a h dh total env (p ++ '/' :: c.name)
        (childR r c.name) s hp' (by rw [hres])
      obtain ⟨hok2, hcf2, hmk2⟩ := ihl hw.2 a h dh total env p r s1 hp hnone
      refine ⟨by simp [okTreeL, hok1, hok2], ?_, ?_⟩
      · intro f hf
        simp only [inclFilesL, List.mem_append] at hf
        rcases hf with hf | hf
        · exact hcf1 f hf
        · exact hcf2 f hf
      · intro d hd
        simp only [inclDirsL, List.mem_append] at hd
        rcases hd with hd | hd
        · exact hmk1 d hd
        · exact hmk2 d hd
    | some .skipDir =>
      exact absurd (by rw [hres])
        (walk_copy_no_skip c h dh a total env (p ++ '/' :: c.name) s)
    | some (.fail e) =>
      simp [walkList, hres] at hnone

theorem append_eq_middle {α : Type} {l₁ l₂ pre post : List α} {x : α}
    (h : l₁ ++ l₂ = pre ++ x :: post) :
    (∃ t, l₁ = pre ++ x :: t ∧ post = t ++ l₂) ∨
    (∃ u, pre = l₁ ++ u ∧ l₂ = u ++ x :: post) := by
  induction l₁ generalizing pre with
  | nil =>
    right
    exact ⟨pre, rfl, by simpa using h⟩
  | cons y t₁ ih =>
    cases pre with
    | nil =>
      simp only [List.cons_append, List.nil_append, List.cons.injEq] at h
      left
      exact ⟨t₁, by simp [h.1], h.2.symm⟩
    | cons z pre' =>
      simp only [List.cons_append, List.cons.injEq] at h
      rcases ih h.2 with ⟨t, h1, h2⟩ | ⟨u, h1, h2⟩
      · left; exact ⟨t, by simp [h.1, h1], h2⟩
      · right; exact ⟨u, by simp [h.1, h1], h2⟩

/-- A copy pass hitting its first copyFile failure: when the walk is about
to copy the non-excluded files of the subtree in pre-order, every file
before fq succeeds and copyFile fails on fq (directories and reachable
entries being otherwise sound), the walk aborts with exactly that error,
the counter has advanced by the number of files before fq, and exactly one
progress update per file before fq was emitted - none for fq itself. -/
theorem walk_copy_fail :
    ∀ t : Entry, wfE t = true →
      ∀ (a h dh : FsPath) (total : Nat) (env : IOEnv) (p r : FsPath) (s : CopyState)
        (pre : List FileRec) (fq : FileRec) (post : List FileRec),
      p = goJoin h r →
      okTreeE a p t = true →
      inclFiles a p r t = pre ++ fq :: post →
      (∀ f ∈ pre, env.copyFails f.src = none) →
      env.copyFails fq.src ≠ none →
      (∀ d ∈ inclDirs a p r t, env.mkdirFails (goJoin dh d.rel) = false) →
      (walk1 (copyFn h dh a total env) p t s).1.copied = s.copied + pre.length ∧
      (walk1 (copyFn h dh a total env) p t s).1.events =
        s.events ++ evRange s.copied pre.length total ∧
      (walk1 (copyFn h dh a total env) p t s).2 = some (.fail (.copyErr fq.src)) := by
  have main := entry_ind
    (P := fun t => wfE t = true →
      ∀ (a h dh : FsPath) (total : Nat) (env : IOEnv) (p r : FsPath) (s : CopyState)
        (pre : List FileRec) (fq : FileRec) (post : List FileRec),
      p = goJoin h r →
      okTreeE a p t = true →
      inclFiles a p r t = pre ++ fq :: post →
      (∀ f ∈ pre, env.copyFails f.src = none) →
      env.copyFails fq.src ≠ none →
      (∀ d ∈ inclDirs a p r t, env.mkdirFails (goJoin dh d.rel) = false) →
      (walk1 (copyFn h dh a total env) p t s).1.copied = s.copied + pre.length ∧
      (walk1 (copyFn h dh a total env) p t s).1.events =
        s.events ++ evRange s.copied pre.length total ∧
      (walk1 (copyFn h dh a total env) p t s).2 = some (.fail (.copyErr fq.src)))
    (Q := fun l => wfL l = true →
      ∀ (a h dh : FsPath) (total : Nat) (env : IOEnv) (p r : FsPath) (s : CopyState)
        (pre : List FileRec) (fq : FileRec) (post : List FileRec),
      p = goJoin h r →
      okTreeL a p l = true →
      inclFilesL a p r l = pre ++ fq :: post →
      (∀ f ∈ pre, env.copyFails f.src = none) →
      env.copyFails fq.src ≠ none →
      (∀ d ∈ inclDirsL a p r l, env.mkdirFails (goJoin dh d.rel) = false) →
      (walkList (copyFn h dh a total env) p l s).1.copied = s.copied + pre.length ∧
      (walkList (copyFn h dh a total env) p l s).1.events =
        s.events ++ evRange s.copied pre.length total ∧
      (walkList (copyFn h dh a total env) p l s).2 = some (.fail (.copyErr fq.src)))
    ?_ ?_ ?_ ?_ ?_
  · exact main
  · intro nm c m _ a h dh total env p r s pre fq post hp hok hsplit hpre hfail hmk
    by_cases hex : excluded a p
    · simp only [inclFiles, hex, if_true] at hsplit
      cases pre <;> simp at hsplit
    · have hexf : excluded a p = false := by simpa using hex
      simp only [inclFiles, hexf, if_false, Bool.false_eq_true] at hsplit
      cases pre with
      | nil =>
        simp only [List.nil_append, List.cons.injEq] at hsplit
        obtain ⟨rfl, rfl⟩ := hsplit
        rcases henv : env.copyFails p with _ | st
        · exact absurd (by simpa using henv) hfail
        · have hexf2 := hexf
          rw [hp] at hexf2 henv
          simp [walk1, copyFn_ok, hexf2, copyAct, hp, relP_goJoin, henv, evRange_zero]
      | cons f pre' =>
        exact absurd (congrArg List.length hsplit) (by simp)
  · intro nm hw a h dh total env p r s pre fq post hp hok hsplit hpre hfail hmk
    simp [okTreeE] at hok
  · intro nm m cs ih hw a h dh total env p r s pre fq post hp hok hsplit hpre hfail hmk
    simp only [wfE, Bool.and_eq_true] at hw
    by_cases hex : excluded a p
    · simp only [inclFiles, hex, if_true] at hsplit
      cases pre <;> simp at hsplit
    · have hexf : excluded a p = false := by simpa using hex
      have hself : env.mkdirFails (goJoin dh r) = false := by
        have := hmk ⟨p, r, m⟩ (by simp [inclDirs, hexf])
        simpa using this
      have e1 : copyFn h dh a total env s p (.ok (.dir nm m cs)) =
          ({ s with ops := s.ops ++ [.mkdirAll (goJoin dh r) m] }, none) := by
        simp only [copyFn_ok, hexf, if_false, Bool.false_eq_true, copyAct, hp, relP_goJoin]
        simp [← hp, hexf, hself]
      have hwalk : walk1 (copyFn h dh a total env) p (.dir nm m cs) s =
          walkList (copyFn h dh a total env) p cs
            { s with ops := s.ops ++ [.mkdirAll (goJoin dh r) m] } := by
        simp only [walk1, e1]
      rw [hwalk]
      have hokl : okTreeL a p cs = true := by simpa [okTreeE, hexf] using hok
      have hsplit' : inclFilesL a p r cs = pre ++ fq :: post := by
        simpa [inclFiles, hexf] using hsplit
      have hmk' : ∀ d ∈ inclDirsL a p r cs, env.mkdirFails (goJoin dh d.rel) = false := by
        intro d hd
        exact hmk d (by simp [inclDirs, hexf, hd])
      exact ih hw.2 a h dh total env p r _ pre fq post hp hokl hsplit' hpre hfail hmk'
  · intro _ a h dh total env p r s pre fq post _ _ hsplit _ _ _
    simp only [inclFilesL] at hsplit
    cases pre <;> simp at hsplit
  · intro c cs ihc ihl hw a h dh total env p r s pre fq post hp hok hsplit hpre hfail hmk
    simp only [wfL, Bool.and_eq_true] at hw
    have hg := goodName_iff.mp (wfE_name hw.1)
    have hp' : p ++ '/' :: c.name = goJoin h (childR r c.name) := by
      rw [hp]; exact goJoin_child hg.1
    simp only [okTreeL, Bool.and_eq_true] at hok
    simp only [inclFilesL] at hsplit
    have hmkc : ∀ d ∈ inclDirs a (p ++ '/' :: c.name) (childR r c.name) c,
        env.mkdirFails (goJoin dh d.rel) = false := by
      intro d hd
      exact hmk d (by simp [inclDirsL, hd])
    have hmkl : ∀ d ∈ inclDirsL a p r cs, env.mkdirFails (goJoin dh d.rel) = false := by
      intro d hd
      exact hmk d (by simp [inclDirsL, hd])
    rcases append_eq_middle hsplit with ⟨tp, hFc, _⟩ | ⟨u, hpre2, hFcs⟩
    · obtain ⟨h1, h2, h3⟩ := ihc hw.1 a h dh total env (p ++ '/' :: c.name)
        (childR r c.name) s pre fq tp hp' hok.1 hFc hpre hfail hmkc
      rcases hres : walk1 (copyFn h dh a total env) (p ++ '/' :: c.name) c s with ⟨s1, r1⟩
      rw [hres] at h1 h2 h3
      simp only at h1 h2 h3
      rw [h3] at hres
      simp only [walkList, hres]
      exact ⟨h1, h2, trivial⟩
    · have hfc : ∀ f ∈ inclFiles a (p ++ '/' :: c.name) (childR r c.name) c,
          env.copyFails f.src = none := by
        intro f hf
        exact hpre f (by rw [hpre2]; exact List.mem_append_left _ hf)
      have hc := walk_copy_ok c hw.1 a h dh total env (p ++ '/' :: c.name)
        (childR r c.name) s hp' hok.1 hfc hmkc
      have hu : ∀ f ∈ u, env.copyFails f.src = none := by
        intro f hf
        exact hpre f (by rw [hpre2]; exact List.mem_append_right _ hf)
      obtain ⟨h1, h2, h3⟩ := ihl hw.2 a h dh total env p r
        ({ copied := s.copied + (inclFiles a (p ++ '/' :: c.name) (childR r c.name) c).length,
           ops := s.ops ++ specOps dh a (p ++ '/' :: c.name) (childR r c.name) c,
           events := s.events ++ evRange s.copied
             (inclFiles a (p ++ '/' :: c.name) (childR r c.name) c).length total })
        u fq post hp hok.2 hFcs hu hfail hmkl
      simp only [walkList, hc]
      refine ⟨?_, ?_, h3⟩
      · rw [h1]
        simp only [hpre2, List.length_append]
        omega
      · rw [h2]
        simp only [hpre2, List.length_append]
        rw [evRange_add]
        simp [List.append_assoc]

/-- Whatever stage copyFile reaches, its destination writes target only
the destination file path and its parent directory. -/
theorem copyFileOps_target {dst : FsPath} {c : List Nat} {m : Nat}
    {st : Option CopyStage} {op : FSOp} (hop : op ∈ copyFileOps dst c m st) :
    op.target = dirOf dst ∨ op.target = dst := by
  rcases st with _ | st
  · simp only [copyFileOps, List.mem_cons, List.not_mem_nil, or_false] at hop
    rcases hop with rfl | rfl
    · exact Or.inl rfl
    · exact Or.inr rfl
  · cases st with
    | openFail => simp [copyFileOps] at hop
    | createFail =>
      simp only [copyFileOps, List.mem_cons, List.not_mem_nil, or_false] at hop
      rw [hop]
      exact Or.inl rfl
    | copyFail =>
      simp only [copyFileOps, List.mem_cons, List.not_mem_nil, or_false] at hop
      rcases hop with rfl | rfl
      · exact Or.inl rfl
      · exact Or.inr rfl
    | chmodFail =>
      simp only [copyFileOps, List.mem_cons, List.not_mem_nil, or_false] at hop
      rcases hop with rfl | rfl
      · exact Or.inl rfl
      · exact Or.inr rfl

/-- Every destination write the copy pass performs on a subtree, whether
the pass succeeds or aborts anywhere, targets either the mirror of a
non-excluded node of the subtree or (for the parent MkdirAll inside
copyFile) the directory of such a mirror, which is the mirror of the
node enclosing directory. -/
theorem walk_copy_targets :
    ∀ t : Entry, wfE t = true →
      ∀ (a h dh : FsPath) (total : Nat) (env : IOEnv) (p r : FsPath) (s : CopyState),
      p = goJoin h r →
      ∃ Δ, (walk1 (copyFn h dh a total env) p t s).1.ops = s.ops ++ Δ ∧
        ∀ op ∈ Δ, op.target ∈
          (if t.isDir then ([] : List FsPath) else [dirOf (goJoin dh r)]) ++
          (inclRels a p r t).map (goJoin dh) := by
  have main := entry_ind
    (P := fun t => wfE t = true →
      ∀ (a h dh : FsPath) (total : Nat) (env : IOEnv) (p r : FsPath) (s : CopyState),
      p = goJoin h r →
      ∃ Δ, (walk1 (copyFn h dh a total env) p t s).1.ops = s.ops ++ Δ ∧
        ∀ op ∈ Δ, op.target ∈
          (if t.isDir then ([] : List FsPath) else [dirOf (goJoin dh r)]) ++
          (inclRels a p r t).map (goJoin dh))
    (Q := fun l => wfL l = true →
      ∀ (a h dh : FsPath) (total : Nat) (env : IOEnv) (p r : FsPath) (s : CopyState),
      p = goJoin h r →
      ∃ Δ, (walkList (copyFn h dh a total env) p l s).1.ops = s.ops ++ Δ ∧
        ∀ op ∈ Δ, op.target ∈ goJoin dh r :: (inclRelsL a p r l).map (goJoin dh))
    ?_ ?_ ?_ ?_ ?_
  · exact main
  · intro nm c m _ a h dh total env p r s hp
    by_cases hex : excluded a p
    · refine ⟨[], by simp [walk1, copyFn_ok, hex, Entry.isDir], by simp⟩
    · have hexf : excluded a p = false := by simpa using hex
      have hexf2 := hexf
      rw [hp] at hexf2
      rcases henv : env.copyFails p with _ | st
      · rw [hp] at henv
        refine ⟨copyFileOps (goJoin dh r) c m none, ?_, ?_⟩
        · simp [walk1, copyFn_ok, hexf2, copyAct, hp, relP_goJoin, henv]
        · intro op hop
          rcases copyFileOps_target hop with ht | ht <;> rw [ht] <;>
            simp [Entry.isDir, inclRels, hexf]
      · rw [hp] at henv
        refine ⟨copyFileOps (goJoin dh r) c m (some st), ?_, ?_⟩
        · simp [walk1, copyFn_ok, hexf2, copyAct, hp, relP_goJoin, henv]
        · intro op hop
          rcases copyFileOps_target hop with ht | ht <;> rw [ht] <;>
            simp [Entry.isDir, inclRels, hexf]
  · intro nm _ a h dh total env p r s _
    exact ⟨[], by simp [walk1, copyFn], by simp⟩
  · intro nm m cs ih hw a h dh total env p r s hp
    simp only [wfE, Bool.and_eq_true] at hw
    by_cases hex : excluded a p
    · exact ⟨[], by simp [walk1, copyFn_ok, hex, Entry.isDir], by simp⟩
    · have hexf : excluded a p = false := by simpa using hex
      by_cases hmf : env.mkdirFails (goJoin dh r)
      · have hexf2 := hexf
        rw [hp] at hexf2
        refine ⟨[], ?_, by simp⟩
        simp [walk1, copyFn_ok, hexf2, copyAct, hp, relP_goJoin, hmf]
      · have hmff : env.mkdirFails (goJoin dh r) = false := by simpa using hmf
        have e1 : copyFn h dh a total env s p (.ok (.dir nm m cs)) =
            ({ s with ops := s.ops ++ [.mkdirAll (goJoin dh r) m] }, none) := by
          simp only [copyFn_ok, hexf, if_false, Bool.false_eq_true, copyAct, hp, relP_goJoin]
          simp [← hp, hexf, hmff]
        obtain ⟨Δl, hops, htg⟩ := ih hw.2 a h dh total env p r
          { s with ops := s.ops ++ [.mkdirAll (goJoin dh r) m] } hp
        refine ⟨.mkdirAll (goJoin dh r) m :: Δl, ?_, ?_⟩
        · simp only [walk1, e1]
          rw [hops]
          simp
        · intro op hop
          rcases List.mem_cons.mp hop with rfl | hop
          · simp [FSOp.target, Entry.isDir, inclRels, hexf]
          · have := htg op hop
            simp only [Entry.isDir, if_true, List.nil_append]
            simp only [inclRels, hexf, if_false, Bool.false_eq_true, List.map_cons]
            exact this
  · intro _ a h dh total env p r s _
    exact ⟨[], by simp [walkList], by simp⟩
  · intro c cs ihc ihl hw a h dh total env p r s hp
    simp only [wfL, Bool.and_eq_true] at hw
    have hg := goodName_iff.mp (wfE_name hw.1)
    have hp' : p ++ '/' :: c.name = goJoin h (childR r c.name) := by
      rw [hp]; exact goJoin_child hg.1
    obtain ⟨Δc, hops1, htg1⟩ := ihc hw.1 a h dh total env (p ++ '/' :: c.name)
      (childR r c.name) s hp'
    have htg1' : ∀ op ∈ Δc, op.target ∈ goJoin dh r ::
        (inclRelsL a p r (c :: cs)).map (goJoin dh) := by
      intro op hop
      have := htg1 op hop
      rw [List.mem_append] at this
      rcases this with hin | hin
      · by_cases hd : c.isDir
        · simp [hd] at hin
        · simp [hd] at hin
          rw [hin, dirOf_goJoin_child hg.1 hg.2]
          simp
      · simp only [List.mem_cons]
        right
        simp only [inclRelsL, List.map_append, List.mem_append]
        exact Or.inl hin
    rcases hres : walk1 (copyFn h dh a total env) (p ++ '/' :: c.name) c s with ⟨s1, r1⟩
    rw [hres] at hops1
    simp only at hops1
    have hcont : ∀ s2 : CopyState, s2.ops = s.ops ++ Δc →
        ∃ Δ, (walkList (copyFn h dh a total env) p cs s2).1.ops = s.ops ++ Δ ∧
          ∀ op ∈ Δ, op.target ∈ goJoin dh r :: (inclRelsL a p r (c :: cs)).map (goJoin dh) := by
      intro s2 hs2
      obtain ⟨Δr, hops2, htg2⟩ := ihl hw.2 a h dh total env p r s2 hp
      refine ⟨Δc ++ Δr, by rw [hops2, hs2, List.append_assoc], ?_⟩
      intro op hop
      rcases List.mem_append.mp hop with hop | hop
      · exact htg1' op hop
      · have := htg2 op hop
        rcases List.mem_cons.mp this with he | he
        · simp [he]
        · simp only [List.mem_cons]
          right
          simp only [inclRelsL, List.map_append, List.mem_append]
          right
          exact List.mem_map.mpr (by
            obtain ⟨x, hx1, hx2⟩ := List.mem_map.mp he
            exact ⟨x, hx1, hx2⟩)
    match r1 with
    | none =>
      have := hcont s1 hops1
      simpa only [walkList, hres] using this
    | some .skipDir =>
      by_cases hd : c.isDir
      · have := hcont s1 hops1
        simp only [walkList, hres, hd, if_true]
        exact this
      · refine ⟨Δc, ?_, htg1'⟩
        simp only [walkList, hres, hd]
        simpa using hops1
    | some (.fail e) =>
      refine ⟨Δc, ?_, htg1'⟩
      simp only [walkList, hres]
      exact hops1

/-- The walk status of the copy pass does not depend on the state threaded
through it nor on the totalFiles denominator: those only influence the
recorded writes and the numbers inside the progress updates. -/
theorem walk_copy_status_indep :
    ∀ t : Entry, ∀ (h dh a : FsPath) (env : IOEnv) (total total2 : Nat) (p : FsPath)
      (s s2 : CopyState),
      (walk1 (copyFn h dh a total env) p t s).2 =
        (walk1 (copyFn h dh a total2 env) p t s2).2 := by
  have main := entry_ind
    (P := fun t => ∀ (h dh a : FsPath) (env : IOEnv) (total total2 : Nat) (p : FsPath)
      (s s2 : CopyState),
      (walk1 (copyFn h dh a total env) p t s).2 =
        (walk1 (copyFn h dh a total2 env) p t s2).2)
    (Q := fun l => ∀ (h dh a : FsPath) (env : IOEnv) (total total2 : Nat) (p : FsPath)
      (s s2 : CopyState),
      (walkList (copyFn h dh a total env) p l s).2 =
        (walkList (copyFn h dh a total2 env) p l s2).2)
    (by intro nm c m h dh a env total total2 p s s2
        by_cases hex : excluded a p
        · simp [walk1, copyFn_ok, hex]
        · have hexf : excluded a p = false := by simpa using hex
          rcases hrel : relP h p with _ | rel
          · simp [walk1, copyFn_ok, hexf, copyAct, hrel]
          · rcases henv : env.copyFails p with _ | st <;>
              simp [walk1, copyFn_ok, hexf, copyAct, hrel, henv])
    (by intro nm h dh a env total total2 p s s2
        simp [walk1, copyFn])
    (by intro nm m cs ih h dh a env total total2 p s s2
        by_cases hex : excluded a p
        · simp [walk1, copyFn_ok, hex, Entry.isDir]
        · have hexf : excluded a p = false := by simpa using hex
          rcases hrel : relP h p with _ | rel
          · simp [walk1, copyFn_ok, hexf, copyAct, hrel]
          · by_cases hmf : env.mkdirFails (goJoin dh rel)
            · simp [walk1, copyFn_ok, hexf, copyAct, hrel, hmf]
            · simp only [walk1, copyFn_ok, hexf, if_false, Bool.false_eq_true, copyAct,
                hrel, hmf, ite_false]
              exact ih h dh a env total total2 p _ _)
    (by intro h dh a env total total2 p s s2; simp [walkList])
    (by intro c cs ihc ihl h dh a env total total2 p s s2
        rcases hres1 : walk1 (copyFn h dh a total env) (p ++ '/' :: c.name) c s with ⟨s1, r1⟩
        rcases hres2 : walk1 (copyFn h dh a total2 env) (p ++ '/' :: c.name) c s2 with ⟨t1, r2⟩
        have hr : r1 = r2 := by
          have := ihc h dh a env total total2 (p ++ '/' :: c.name) s s2
          rw [hres1, hres2] at this
          simpa using this
        subst hr
        match r1 with
        | none =>
          simp only [walkList, hres1, hres2]
          exact ihl h dh a env total total2 p s1 t1
        | some .skipDir =>
          by_cases hd : c.isDir
          · simp only [walkList, hres1, hres2, hd, if_true]
            exact ihl h dh a env total total2 p s1 t1
          · simp [walkList, hres1, hres2, hd]
        | some (.fail e) => simp [walkList, hres1, hres2])
  exact main

/- ------------------------------------------------------------------ -/
/- Destination filesystem lemmas                                       -/
/- ------------------------------------------------------------------ -/

theorem applyOps_append (d : DestFS) (l₁ l₂ : List FSOp) :
    applyOps d (l₁ ++ l₂) = applyOps (applyOps d l₁) l₂ := by
  simp [applyOps, List.foldl_append]

theorem applyOps_frame :
    ∀ (l : List FSOp) (d : DestFS) (q : FsPath), (∀ op ∈ l, op.target ≠ q) →
      (applyOps d l).dirs q = d.dirs q ∧ (applyOps d l).files q = d.files q := by
  intro l
  induction l with
  | nil => intro d q _; exact ⟨rfl, rfl⟩
  | cons op l ih =>
    intro d q hq
    have h1 : (applyOp d op).dirs q = d.dirs q ∧ (applyOp d op).files q = d.files q := by
      have hne : op.target ≠ q := hq op (by simp)
      cases op with
      | mkdirAll x m =>
        simp only [FSOp.target] at hne
        have hne2 : q ≠ x := Ne.symm hne
        by_cases hx : (d.dirs x).isSome
        · simp [applyOp, hx]
        · simp [applyOp, hx, hne2]
      | writeFile x c m =>
        simp only [FSOp.target] at hne
        have hne2 : q ≠ x := Ne.symm hne
        simp [applyOp, hne2]
    have h2 := ih (applyOp d op) q (fun o ho => hq o (by simp [ho]))
    exact ⟨by rw [show applyOps d (op :: l) = applyOps (applyOp d op) l from rfl, h2.1, h1.1],
      by rw [show applyOps d (op :: l) = applyOps (applyOp d op) l from rfl, h2.2, h1.2]⟩

theorem applyOps_dom_dirs :
    ∀ (l : List FSOp) (d : DestFS) (q : FsPath), (applyOps d l).dirs q ≠ none →
      d.dirs q ≠ none ∨ ∃ op ∈ l, op.target = q := by
  intro l
  induction l with
  | nil => intro d q hq; exact Or.inl hq
  | cons op l ih =>
    intro d q hq
    rcases ih (applyOp d op) q hq with hd | ⟨o, ho, ht⟩
    · cases op with
      | mkdirAll x m =>
        by_cases hx : (d.dirs x).isSome
        · simp only [applyOp, hx, if_true] at hd
          exact Or.inl hd
        · simp only [applyOp, hx, if_false, Bool.false_eq_true] at hd
          by_cases hxq : q = x
          · exact Or.inr ⟨.mkdirAll x m, by simp, by simp [FSOp.target, hxq]⟩
          · simp only [hxq, if_false] at hd
            exact Or.inl hd
      | writeFile x c m =>
        simp only [applyOp] at hd
        exact Or.inl hd
    · exact Or.inr ⟨o, by simp [ho], ht⟩

theorem applyOps_dom_files :
    ∀ (l : List FSOp) (d : DestFS) (q : FsPath), (applyOps d l).files q ≠ none →
      d.files q ≠ none ∨ ∃ op ∈ l, op.target = q := by
  intro l
  induction l with
  | nil => intro d q hq; exact Or.inl hq
  | cons op l ih =>
    intro d q hq
    rcases ih (applyOp d op) q hq with hd | ⟨o, ho, ht⟩
    · cases op with
      | mkdirAll x m =>
        by_cases hx : (d.dirs x).isSome
        · simp only [applyOp, hx, if_true] at hd
          exact Or.inl hd
        · simp only [applyOp, hx, if_false, Bool.false_eq_true] at hd
          exact Or.inl hd
      | writeFile x c m =>
        simp only [applyOp] at hd
        by_cases hxq : q = x
        · exact Or.inr ⟨.writeFile x c m, by simp, by simp [FSOp.target, hxq]⟩
        · simp only [hxq, if_false] at hd
          exact Or.inl hd
    · exact Or.inr ⟨o, by simp [ho], ht⟩

theorem rel_child_vs_rest {a p r : FsPath} {c : Entry} {cs : List Entry}
    (hwc : wfE c = true) (hwl : wfL cs = true) (hnm : c.name ∉ cs.map Entry.name)
    {x q : FsPath} (hx : x ∈ inclRels a (p ++ '/' :: c.name) (childR r c.name) c)
    (hq : q ∈ inclRelsL a p r cs) : x ≠ q := by
  obtain ⟨c', hc', hq'⟩ := mem_inclRelsL hq
  intro he
  subst he
  exact sibling_rels_ne hwc (wfL_mem hwl hc') (wfE_name hwc) (wfE_name (wfL_mem hwl hc'))
    (fun hnn => hnm (hnn ▸ List.mem_map_of_mem Entry.name hc'))
    (inclRels_sub_all c _ _ _ _ hx) (inclRels_sub_all c' _ _ _ _ hq')

theorem rel_child_ne_self {a p r : FsPath} {c : Entry} (hwc : wfE c = true)
    {x : FsPath} (hx : x ∈ inclRels a (p ++ '/' :: c.name) (childR r c.name) c) :
    x ≠ r := by
  intro he
  exact self_notin_child hwc (wfE_name hwc)
    (he ▸ inclRels_sub_all c _ _ _ _ hx)


/-- Applying the specification writes of a successful copy pass to a
destination state in which the mirrored paths of the subtree do not exist
yet (and, for a file, whose mirrored parent directory exists): every
non-excluded file ends up at its mirror with its content and permission
bits, every non-excluded directory ends up at its mirror with its
permission bits, and no other path of the destination changes. -/
theorem applySpec :
    ∀ t : Entry, wfE t = true →
      ∀ (a dh p r : FsPath) (d : DestFS),
      (∀ q ∈ inclRels a p r t, d.dirs (goJoin dh q) = none) →
      (t.isDir = false → (d.dirs (dirOf (goJoin dh r))).isSome = true) →
      ((∀ f ∈ inclFiles a p r t,
          (applyOps d (specOps dh a p r t)).files (goJoin dh f.rel) =
            some (some f.content, some f.mode)) ∧
       (∀ dr ∈ inclDirs a p r t,
          (applyOps d (specOps dh a p r t)).dirs (goJoin dh dr.rel) = some dr.mode) ∧
       (∀ q, (∀ x ∈ inclRels a p r t, goJoin dh x ≠ q) →
          (applyOps d (specOps dh a p r t)).dirs q = d.dirs q ∧
          (applyOps d (specOps dh a p r t)).files q = d.files q)) := by
  have main := entry_ind
    (P := fun t => wfE t = true →
      ∀ (a dh p r : FsPath) (d : DestFS),
      (∀ q ∈ inclRels a p r t, d.dirs (goJoin dh q) = none) →
      (t.isDir = false → (d.dirs (dirOf (goJoin dh r))).isSome = true) →
      ((∀ f ∈ inclFiles a p r t,
          (applyOps d (specOps dh a p r t)).files (goJoin dh f.rel) =
            some (some f.content, some f.mode)) ∧
       (∀ dr ∈ inclDirs a p r t,
          (applyOps d (specOps dh a p r t)).dirs (goJoin dh dr.rel) = some dr.mode) ∧
       (∀ q, (∀ x ∈ inclRels a p r t, goJoin dh x ≠ q) →
          (applyOps d (specOps dh a p r t)).dirs q = d.dirs q ∧
          (applyOps d (specOps dh a p r t)).files q = d.files q)))
    (Q := fun l => wfL l = true → ((l.map Entry.name).Nodup) →
      ∀ (a dh p r : FsPath) (d : DestFS),
      (∀ q ∈ inclRelsL a p r l, d.dirs (goJoin dh q) = none) →
      ((d.dirs (goJoin dh r)).isSome = true) →
      ((∀ f ∈ inclFilesL a p r l,
          (applyOps d (specOpsL dh a p r l)).files (goJoin dh f.rel) =
            some (some f.content, some f.mode)) ∧
       (∀ dr ∈ inclDirsL a p r l,
          (applyOps d (specOpsL dh a p r l)).dirs (goJoin dh dr.rel) = some dr.mode) ∧
       (∀ q, (∀ x ∈ inclRelsL a p r l, goJoin dh x ≠ q) →
          (applyOps d (specOpsL dh a p r l)).dirs q = d.dirs q ∧
          (applyOps d (specOpsL dh a p r l)).files q = d.files q)))
    ?_ ?_ ?_ ?_ ?_
  · exact main
  · intro nm c m _ a dh p r d hfr hpar
    by_cases hex : excluded a p
    · refine ⟨?_, ?_, ?_⟩
      · intro f hf; simp [inclFiles, hex] at hf
      · intro dr hd; simp [inclDirs] at hd
      · intro q _
        simp [specOps, hex, applyOps]
    · have hexf : excluded a p = false := by simpa using hex
      have hpar' : (d.dirs (dirOf (goJoin dh r))).isSome = true := hpar (by simp [Entry.isDir])
      have e1 : applyOp d (.mkdirAll (dirOf (goJoin dh r)) 493) = d := by
        simp [applyOp, hpar']
      have eall : applyOps d (specOps dh a p r (.file nm c m)) =
          applyOp d (.writeFile (goJoin dh r) (some c) (some m)) := by
        simp only [specOps, hexf, if_false, Bool.false_eq_true, copyFileOps, applyOps,
          List.foldl_cons, List.foldl_nil, e1]
      refine ⟨?_, ?_, ?_⟩
      · intro f hf
        simp only [inclFiles, hexf, if_false, Bool.false_eq_true, List.mem_singleton] at hf
        subst hf
        rw [eall]
        simp [applyOp]
      · intro dr hd; simp [inclDirs] at hd
      · intro q hq
        have hqr : goJoin dh r ≠ q := hq r (by simp [inclRels, hexf])
        rw [eall]
        have hq2 : q ≠ goJoin dh r := Ne.symm hqr
        simp [applyOp, hq2]
  · intro nm _ a dh p r d hfr hpar
    refine ⟨?_, ?_, ?_⟩
    · intro f hf; simp [inclFiles] at hf
    · intro dr hd; simp [inclDirs] at hd
    · intro q _
      simp [specOps, applyOps]
  · intro nm m cs ih hw a dh p r d hfr hpar
    simp only [wfE, Bool.and_eq_true, decide_eq_true_eq] at hw
    by_cases hex : excluded a p
    · refine ⟨?_, ?_, ?_⟩
      · intro f hf; simp [inclFiles, hex] at hf
      · intro dr hd; simp [inclDirs, hex] at hd
      · intro q _
        simp [specOps, hex, applyOps]
    · have hexf : excluded a p = false := by simpa using hex
      have hfrr : d.dirs (goJoin dh r) = none := hfr r (by simp [inclRels, hexf])
      have hnotsome : (d.dirs (goJoin dh r)).isSome = false := by simp [hfrr]
      have eall : applyOps d (specOps dh a p r (.dir nm m cs)) =
          applyOps (applyOp d (.mkdirAll (goJoin dh r) m)) (specOpsL dh a p r cs) := by
        simp only [specOps, hexf, if_false, Bool.false_eq_true]
        rfl
      have hd1r : (applyOp d (.mkdirAll (goJoin dh r) m)).dirs (goJoin dh r) = some m := by
        simp [applyOp, hnotsome]
      have hd1other : ∀ y, y ≠ goJoin dh r →
          (applyOp d (.mkdirAll (goJoin dh r) m)).dirs y = d.dirs y := by
        intro y hy
        simp [applyOp, hnotsome, hy]
      have hd1files : (applyOp d (.mkdirAll (goJoin dh r) m)).files = d.files := by
        simp [applyOp, hnotsome]
      have hne_r : ∀ x ∈ inclRelsL a p r cs, goJoin dh x ≠ goJoin dh r := by
        intro x hx he
        obtain ⟨c', hc', hx'⟩ := mem_inclRelsL hx
        exact rel_child_ne_self (wfL_mem hw.2 hc') hx' (goJoin_inj he)
      have hfrL : ∀ q ∈ inclRelsL a p r cs,
          (applyOp d (.mkdirAll (goJoin dh r) m)).dirs (goJoin dh q) = none := by
        intro q hqm
        rw [hd1other _ (hne_r q hqm)]
        exact hfr q (by simp [inclRels, hexf, hqm])
      obtain ⟨Hf, Hd, Hfr⟩ := ih hw.2 hw.1.2 a dh p r
        (applyOp d (.mkdirAll (goJoin dh r) m)) hfrL (by simp [hd1r])
      refine ⟨?_, ?_, ?_⟩
      · intro f hf
        rw [eall]
        exact Hf f (by simpa [inclFiles, hexf] using hf)
      · intro dr hd
        simp only [inclDirs, hexf, if_false, Bool.false_eq_true, List.mem_cons] at hd
        rcases hd with rfl | hd
        · rw [eall]
          have := (Hfr (goJoin dh r) hne_r).1
          rw [this, hd1r]
        · rw [eall]
          exact Hd dr hd
      · intro q hq
        rw [eall]
        have hq' : ∀ x ∈ inclRelsL a p r cs, goJoin dh x ≠ q := by
          intro x hx
          exact hq x (by simp [inclRels, hexf, hx])
        obtain ⟨e1d, e1f⟩ := Hfr q hq'
        have hqr : q ≠ goJoin dh r :=
          Ne.symm (hq r (by simp [inclRels, hexf]))
        exact ⟨by rw [e1d, hd1other q hqr], by rw [e1f, hd1files]⟩
  · intro _ _ a dh p r d _ _
    refine ⟨?_, ?_, ?_⟩
    · intro f hf; simp [inclFilesL] at hf
    · intro dr hd; simp [inclDirsL] at hd
    · intro q _
      simp [specOpsL, applyOps]
  · intro c cs ihc ihl hw hnd a dh p r d hfr hpar
    simp only [wfL, Bool.and_eq_true] at hw
    simp only [List.map_cons, List.nodup_cons] at hnd
    have hg := goodName_iff.mp (wfE_name hw.1)
    have eall : applyOps d (specOpsL dh a p r (c :: cs)) =
        applyOps (applyOps d (specOps dh a (p ++ '/' :: c.name) (childR r c.name) c))
          (specOpsL dh a p r cs) := by
      simp only [specOpsL]
      exact applyOps_append d _ _
    have hfrc : ∀ q ∈ inclRels a (p ++ '/' :: c.name) (childR r c.name) c,
        d.dirs (goJoin dh q) = none := by
      intro q hqm
      exact hfr q (by simp [inclRelsL, hqm])
    have hparc : c.isDir = false → (d.dirs (dirOf (goJoin dh (childR r c.name)))).isSome = true := by
      intro _
      rw [dirOf_goJoin_child hg.1 hg.2]
      exact hpar
    obtain ⟨Cf, Cd, Cfr⟩ := ihc hw.1 a dh (p ++ '/' :: c.name) (childR r c.name) d hfrc hparc
    have hne_self : ∀ x ∈ inclRels a (p ++ '/' :: c.name) (childR r c.name) c,
        goJoin dh x ≠ goJoin dh r := by
      intro x hx he
      exact rel_child_ne_self hw.1 hx (goJoin_inj he)
    have hfr1 : ∀ q ∈ inclRelsL a p r cs,
        (applyOps d (specOps dh a (p ++ '/' :: c.name) (childR r c.name) c)).dirs
          (goJoin dh q) = none := by
      intro q hqm
      have hnq : ∀ x ∈ inclRels a (p ++ '/' :: c.name) (childR r c.name) c,
          goJoin dh x ≠ goJoin dh q := by
        intro x hx he
        exact rel_child_vs_rest hw.1 hw.2 hnd.1 hx hqm (goJoin_inj he)
      rw [(Cfr (goJoin dh q) hnq).1]
      exact hfr q (by simp [inclRelsL, hqm])
    have hpar1 : ((applyOps d (specOps dh a (p ++ '/' :: c.name) (childR r c.name) c)).dirs
        (goJoin dh r)).isSome = true := by
      rw [(Cfr (goJoin dh r) hne_self).1]
      exact hpar
    obtain ⟨Rf, Rd, Rfr⟩ := ihl hw.2 hnd.2 a dh p r
      (applyOps d (specOps dh a (p ++ '/' :: c.name) (childR r c.name) c)) hfr1 hpar1
    refine ⟨?_, ?_, ?_⟩
    · intro f hf
      rw [eall]
      simp only [inclFilesL, List.mem_append] at hf
      rcases hf with hf | hf
      · have hrel := inclFiles_rel_mem c a (p ++ '/' :: c.name) (childR r c.name) f hf
        have hnq : ∀ x ∈ inclRelsL a p r cs, goJoin dh x ≠ goJoin dh f.rel := by
          intro x hx he
          exact rel_child_vs_rest hw.1 hw.2 hnd.1 hrel hx (goJoin_inj he).symm
        rw [(Rfr (goJoin dh f.rel) hnq).2]
        exact Cf f hf
      · exact Rf f hf
    · intro dr hd
      rw [eall]
      simp only [inclDirsL, List.mem_append] at hd
      rcases hd with hd | hd
      · have hrel := inclDirs_rel_mem c a (p ++ '/' :: c.name) (childR r c.name) dr hd
        have hnq : ∀ x ∈ inclRelsL a p r cs, goJoin dh x ≠ goJoin dh dr.rel := by
          intro x hx he
          exact rel_child_vs_rest hw.1 hw.2 hnd.1 hrel hx (goJoin_inj he).symm
        rw [(Rfr (goJoin dh dr.rel) hnq).1]
        exact Cd dr hd
      · exact Rd dr hd
    · intro q hq
      rw [eall]
      have hqc : ∀ x ∈ inclRels a (p ++ '/' :: c.name) (childR r c.name) c,
          goJoin dh x ≠ q := by
        intro x hx
        exact hq x (by simp [inclRelsL, hx])
      have hqr : ∀ x ∈ inclRelsL a p r cs, goJoin dh x ≠ q := by
        intro x hx
        exact hq x (by simp [inclRelsL, hx])
      obtain ⟨c1d, c1f⟩ := Cfr q hqc
      obtain ⟨r1d, r1f⟩ := Rfr q hqr
      exact ⟨by rw [r1d, c1d], by rw [r1f, c1f]⟩

/-- List version of the application lemma, for the children of the walk
root: here the parent mirror (the destination root) already exists, with
whatever permission bits it was created with. -/
theorem applySpecL :
    ∀ l : List Entry, wfL l = true → ((l.map Entry.name).Nodup) →
      ∀ (a dh p r : FsPath) (d : DestFS),
      (∀ q ∈ inclRelsL a p r l, d.dirs (goJoin dh q) = none) →
      ((d.dirs (goJoin dh r)).isSome = true) →
      ((∀ f ∈ inclFilesL a p r l,
          (applyOps d (specOpsL dh a p r l)).files (goJoin dh f.rel) =
            some (some f.content, some f.mode)) ∧
       (∀ dr ∈ inclDirsL a p r l,
          (applyOps d (specOpsL dh a p r l)).dirs (goJoin dh dr.rel) = some dr.mode) ∧
       (∀ q, (∀ x ∈ inclRelsL a p r l, goJoin dh x ≠ q) →
          (applyOps d (specOpsL dh a p r l)).dirs q = d.dirs q ∧
          (applyOps d (specOpsL dh a p r l)).files q = d.files q)) := by
  intro l
  induction l with
  | nil =>
    intro _ _ a dh p r d _ _
    refine ⟨?_, ?_, ?_⟩
    · intro f hf; simp [inclFilesL] at hf
    · intro dr hd; simp [inclDirsL] at hd
    · intro q _
      simp [specOpsL, applyOps]
  | cons c cs ihl =>
    intro hw hnd a dh p r d hfr hpar
    simp only [wfL, Bool.and_eq_true] at hw
    simp only [List.map_cons, List.nodup_cons] at hnd
    have hg := goodName_iff.mp (wfE_name hw.1)
    have eall : applyOps d (specOpsL dh a p r (c :: cs)) =
        applyOps (applyOps d (specOps dh a (p ++ '/' :: c.name) (childR r c.name) c))
          (specOpsL dh a p r cs) := by
      simp only [specOpsL]
      exact applyOps_append d _ _
    have hfrc : ∀ q ∈ inclRels a (p ++ '/' :: c.name) (childR r c.name) c,
        d.dirs (goJoin dh q) = none := by
      intro q hqm
      exact hfr q (by simp [inclRelsL, hqm])
    have hparc : c.isDir = false →
        (d.dirs (dirOf (goJoin dh (childR r c.name)))).isSome = true := by
      intro _
      rw [dirOf_goJoin_child hg.1 hg.2]
      exact hpar
    obtain ⟨Cf, Cd, Cfr⟩ := applySpec c hw.1 a dh (p ++ '/' :: c.name) (childR r c.name)
      d hfrc hparc
    have hne_self : ∀ x ∈ inclRels a (p ++ '/' :: c.name) (childR r c.name) c,
        goJoin dh x ≠ goJoin dh r := by
      intro x hx he
      exact rel_child_ne_self hw.1 hx (goJoin_inj he)
    have hfr1 : ∀ q ∈ inclRelsL a p r cs,
        (applyOps d (specOps dh a (p ++ '/' :: c.name) (childR r c.name) c)).dirs
          (goJoin dh q) = none := by
      intro q hqm
      have hnq : ∀ x ∈ inclRels a (p ++ '/' :: c.name) (childR r c.name) c,
          goJoin dh x ≠ goJoin dh q := by
        intro x hx he
        exact rel_child_vs_rest hw.1 hw.2 hnd.1 hx hqm (goJoin_inj he)
      rw [(Cfr (goJoin dh q) hnq).1]
      exact hfr q (by simp [inclRelsL, hqm])
    have hpar1 : ((applyOps d (specOps dh a (p ++ '/' :: c.name) (childR r c.name) c)).dirs
        (goJoin dh r)).isSome = true := by
      rw [(Cfr (goJoin dh r) hne_self).1]
      exact hpar
    obtain ⟨Rf, Rd, Rfr⟩ := ihl hw.2 hnd.2 a dh p r
      (applyOps d (specOps dh a (p ++ '/' :: c.name) (childR r c.name) c)) hfr1 hpar1
    refine ⟨?_, ?_, ?_⟩
    · intro f hf
      rw [eall]
      simp only [inclFilesL, List.mem_append] at hf
      rcases hf with hf | hf
      · have hrel := inclFiles_rel_mem c a (p ++ '/' :: c.name) (childR r c.name) f hf
        have hnq : ∀ x ∈ inclRelsL a p r cs, goJoin dh x ≠ goJoin dh f.rel := by
          intro x hx he
          exact rel_child_vs_rest hw.1 hw.2 hnd.1 hrel hx (goJoin_inj he).symm
        rw [(Rfr (goJoin dh f.rel) hnq).2]
        exact Cf f hf
      · exact Rf f hf
    · intro dr hd
      rw [eall]
      simp only [inclDirsL, List.mem_append] at hd
      rcases hd with hd | hd
      · have hrel := inclDirs_rel_mem c a (p ++ '/' :: c.name) (childR r c.name) dr hd
        have hnq : ∀ x ∈ inclRelsL a p r cs, goJoin dh x ≠ goJoin dh dr.rel := by
          intro x hx he
          exact rel_child_vs_rest hw.1 hw.2 hnd.1 hrel hx (goJoin_inj he).symm
        rw [(Rfr (goJoin dh dr.rel) hnq).1]
        exact Cd dr hd
      · exact Rd dr hd
    · intro q hq
      rw [eall]
      have hqc : ∀ x ∈ inclRels a (p ++ '/' :: c.name) (childR r c.name) c,
          goJoin dh x ≠ q := by
        intro x hx
        exact hq x (by simp [inclRelsL, hx])
      have hqr : ∀ x ∈ inclRelsL a p r cs, goJoin dh x ≠ q := by
        intro x hx
        exact hq x (by simp [inclRelsL, hx])
      obtain ⟨c1d, c1f⟩ := Cfr q hqc
      obtain ⟨r1d, r1f⟩ := Rfr q hqr
      exact ⟨by rw [r1d, c1d], by rw [r1f, c1f]⟩

/- ------------------------------------------------------------------ -/
/- Run-level lemmas                                                    -/
/- ------------------------------------------------------------------ -/

/-- The destination root of a run: filepath.Join(destPath, "home_backup"). -/
def destHome (destPath : FsPath) : FsPath := destPath ++ '/' :: ("home_backup".data)

theorem goJoin_dot (d : FsPath) : goJoin d ['.'] = d := by
  simp [goJoin]

theorem homeDir_pathOk (homeDir : FsPath) : homeDir = goJoin homeDir ['.'] := by
  simp [goJoin]

/-- Full characterization of a run in which nothing fails: the total is
the count over the first tree, the destination writes are the initial
MkdirAll of the destination root followed by the specification writes of
the second tree, the progress updates are consecutive, and the outcome is
success. -/
theorem copyHomeFolder_ok (homeDir destPath : FsPath) (t1 t2 : Entry) (env : IOEnv)
    (hw : wfE t2 = true)
    (hok : okTreeE (destHome destPath) homeDir t2 = true)
    (hcf : ∀ f ∈ inclFiles (destHome destPath) homeDir ['.'] t2, env.copyFails f.src = none)
    (hmk : ∀ d ∈ inclDirs (destHome destPath) homeDir ['.'] t2,
      env.mkdirFails (goJoin (destHome destPath) d.rel) = false)
    (hmk0 : env.mkdirFails (destHome destPath) = false) :
    copyHomeFolder homeDir destPath t1 t2 env =
      { total := (inclFiles (destHome destPath) homeDir ['.'] t1).length,
        ops := .mkdirAll (destHome destPath) 493 ::
          specOps (destHome destPath) (destHome destPath) homeDir ['.'] t2,
        events := evRange 0 (inclFiles (destHome destPath) homeDir ['.'] t2).length
          ((inclFiles (destHome destPath) homeDir ['.'] t1).length),
        outcome := none } := by
  have hcount := walk_count t1 (destHome destPath) homeDir ['.'] 0
  have hcopy := walk_copy_ok t2 hw (destHome destPath) homeDir (destHome destPath)
    ((inclFiles (destHome destPath) homeDir ['.'] t1).length) env homeDir ['.']
    ⟨0, [.mkdirAll (destHome destPath) 493], []⟩ (homeDir_pathOk homeDir) hok hcf hmk
  simp only [copyHomeFolder]
  rw [show destPath ++ '/' :: ("home_backup".data) = destHome destPath from rfl]
  rw [hcount]
  simp only [Nat.zero_add, hmk0, if_false, Bool.false_eq_true]
  rw [hcopy]
  simp

/- ------------------------------------------------------------------ -/
/- Device monitor claims                                               -/
/- ------------------------------------------------------------------ -/

/-- Attach-event send (USBEvent with removed = false). -/
def isAttachAct : MonAct → Bool
  | .send e => !e.removed
  | _ => false

/-- Detach-event send (USBEvent with removed = true). -/
def isDetachAct : MonAct → Bool
  | .send e => e.removed
  | _ => false

/-- Any channel send. -/
def isSendAct : MonAct → Bool
  | .send _ => true
  | _ => false

/-- The assignment to previousPartitions. -/
def isSetPrevAct : MonAct → Bool
  | .setPrev _ => true
  | _ => false

theorem filter_not_elem_length {cur prev : List FsPath} (h2 : cur.Nodup) :
    (cur.filter (fun c => !elemB c prev)).length = (cur.toFinset \ prev.toFinset).card := by
  have h1 : (cur.filter (fun c => !elemB c prev)).Nodup := h2.filter _
  rw [← List.toFinset_card_of_nodup h1, List.toFinset_filter, Finset.sdiff_eq_filter]
  congr 1
  apply Finset.filter_congr
  intro x hx
  simp [elemB, List.mem_toFinset]

/-- C5: In every poll cycle, the Device Monitor emits exactly one attach
event per current mount point that is not in the previous snapshot and
exactly one detach event per previous mount point that is not in the
current set - so exactly card(B minus A) attach events and card(A minus B)
detach events, each mount point appearing in at most one event of each
kind; and when the two sets coincide, no event at all is emitted. -/
theorem claim_C5_diffing (previous : List FsPath) (ps : List Partition)
    (h1 : previous.Nodup) (h2 : (filterRemovable ps).Nodup) :
    ((cycleEvents previous (filterRemovable ps)).filter (fun e => !e.removed)).length =
      ((filterRemovable ps).toFinset \ previous.toFinset).card ∧
    ((cycleEvents previous (filterRemovable ps)).filter (fun e => e.removed)).length =
      (previous.toFinset \ (filterRemovable ps).toFinset).card ∧
    (∀ x : FsPath, (cycleEvents previous (filterRemovable ps)).count ⟨x, false⟩ ≤ 1) ∧
    (∀ x : FsPath, (cycleEvents previous (filterRemovable ps)).count ⟨x, true⟩ ≤ 1) ∧
    ((filterRemovable ps).toFinset = previous.toFinset →
      cycleEvents previous (filterRemovable ps) = []) := by
  refine ⟨?_, ?_, ?_, ?_, ?_⟩
  · rw [show (cycleEvents previous (filterRemovable ps)).filter (fun e => !e.removed) =
      ((filterRemovable ps).filter (fun c => !elemB c previous)).map
        (fun c => ⟨c, false⟩) from by
      simp [cycleEvents, List.filter_append, List.filter_map, Function.comp_def,
        List.filter_eq_nil_iff]]
    rw [List.length_map]
    exact filter_not_elem_length h2
  · rw [show (cycleEvents previous (filterRemovable ps)).filter (fun e => e.removed) =
      (previous.filter (fun c => !elemB c (filterRemovable ps))).map
        (fun c => ⟨c, true⟩) from by
      simp [cycleEvents, List.filter_append, List.filter_map, Function.comp_def,
        List.filter_eq_nil_iff]]
    rw [List.length_map]
    exact filter_not_elem_length h1
  · intro x
    simp only [cycleEvents, List.count_append]
    have hinj : Function.Injective (fun c => (⟨c, false⟩ : USBEvent)) := by
      intro u v huv
      simpa using huv
    have hc1 : ((previous.filter (fun q => !elemB q (filterRemovable ps))).map
        (fun q => (⟨q, true⟩ : USBEvent))).count ⟨x, false⟩ = 0 := by
      rw [List.count_eq_zero]
      intro hmem
      obtain ⟨y, _, hy⟩ := List.mem_map.mp hmem
      simp at hy
    rw [hc1, Nat.add_zero,
      show (⟨x, false⟩ : USBEvent) = (fun c => (⟨c, false⟩ : USBEvent)) x from rfl,
      List.count_map_of_injective _ _ hinj]
    exact List.nodup_iff_count_le_one.mp (h2.filter _) x
  · intro x
    simp only [cycleEvents, List.count_append]
    have hinj : Function.Injective (fun c => (⟨c, true⟩ : USBEvent)) := by
      intro u v huv
      simpa using huv
    have hc1 : (((filterRemovable ps).filter (fun q => !elemB q previous)).map
        (fun q => (⟨q, false⟩ : USBEvent))).count ⟨x, true⟩ = 0 := by
      rw [List.count_eq_zero]
      intro hmem
      obtain ⟨y, _, hy⟩ := List.mem_map.mp hmem
      simp at hy
    rw [hc1, Nat.zero_add,
      show (⟨x, true⟩ : USBEvent) = (fun c => (⟨c, true⟩ : USBEvent)) x from rfl,
      List.count_map_of_injective _ _ hinj]
    exact List.nodup_iff_count_le_one.mp (h1.filter _) x
  · intro hab
    have hA : (filterRemovable ps).filter (fun c => !elemB c previous) = [] := by
      rw [List.filter_eq_nil_iff]
      intro c hc
      simp only [elemB, Bool.not_eq_true, decide_eq_false_iff_not, Decidable.not_not]
      have : c ∈ (filterRemovable ps).toFinset := List.mem_toFinset.mpr hc
      rw [hab] at this
      simpa using List.mem_toFinset.mp this
    have hB : previous.filter (fun c => !elemB c (filterRemovable ps)) = [] := by
      rw [List.filter_eq_nil_iff]
      intro c hc
      simp only [elemB, Bool.not_eq_true, decide_eq_false_iff_not, Decidable.not_not]
      have : c ∈ previous.toFinset := List.mem_toFinset.mpr hc
      rw [← hab] at this
      simpa using List.mem_toFinset.mp this
    simp [cycleEvents, hA, hB]

/-- Witness for C5 at a concrete cycle: previous snapshot {/mnt/a, /mnt/b},
current partitions yield {/mnt/b, /mnt/c}: one attach, one detach. -/
theorem claim_C5_diffing_witness :
    ((cycleEvents ["/mnt/a".data, "/mnt/b".data]
        (filterRemovable [⟨"/dev/sdb1".data, "/mnt/b".data⟩,
          ⟨"/dev/sdc1".data, "/mnt/c".data⟩])).filter (fun e => !e.removed)).length =
      ((filterRemovable [⟨"/dev/sdb1".data, "/mnt/b".data⟩,
          ⟨"/dev/sdc1".data, "/mnt/c".data⟩]).toFinset \
        ["/mnt/a".data, "/mnt/b".data].toFinset).card := by
  exact (claim_C5_diffing ["/mnt/a".data, "/mnt/b".data]
    [⟨"/dev/sdb1".data, "/mnt/b".data⟩, ⟨"/dev/sdc1".data, "/mnt/c".data⟩]
    (by decide) (by decide)).1

/-- C6: With previously-seen device /media/usb0, a failing call to
disk.Partitions makes the cycle emit no events and leave the snapshot
unchanged, as the claim says - but the continue statement also skips the
time.Sleep at the bottom of the loop, so the monitor re-polls immediately
instead of retrying at the next 2-second interval (a successful cycle, by
contrast, does end with the sleep). -/
theorem claim_C6_error_cycle :
    detectUSBCycle ["/media/usb0".data] none = ([], ["/media/usb0".data]) ∧
    MonAct.sleep2s ∉ (detectUSBCycle ["/media/usb0".data] none).1 ∧
    MonAct.sleep2s ∈ (detectUSBCycle ["/media/usb0".data] (some [])).1 := by
  refine ⟨rfl, by simp [detectUSBCycle], by decide⟩

/-- C10: Within a single successful poll cycle, every attach send comes
before every detach send, and the snapshot assignment comes after every
send of the cycle. -/
theorem claim_C10_cycle_order (prev : List FsPath) (ps : List Partition) :
    (∀ i j (hi : i < ((detectUSBCycle prev (some ps)).1).length)
        (hj : j < ((detectUSBCycle prev (some ps)).1).length),
      isAttachAct (((detectUSBCycle prev (some ps)).1).get ⟨i, hi⟩) = true →
      isDetachAct (((detectUSBCycle prev (some ps)).1).get ⟨j, hj⟩) = true → i < j) ∧
    (∀ i j (hi : i < ((detectUSBCycle prev (some ps)).1).length)
        (hj : j < ((detectUSBCycle prev (some ps)).1).length),
      isSetPrevAct (((detectUSBCycle prev (some ps)).1).get ⟨i, hi⟩) = true →
      isSendAct (((detectUSBCycle prev (some ps)).1).get ⟨j, hj⟩) = true → j < i) := by
  have htr : (detectUSBCycle prev (some ps)).1 =
      ((filterRemovable ps).filter (fun c => !elemB c prev)).map
        (fun c => MonAct.send ⟨c, false⟩) ++
      ((prev.filter (fun q => !elemB q (filterRemovable ps))).map
        (fun q => MonAct.send ⟨q, true⟩) ++
      [MonAct.setPrev (filterRemovable ps), MonAct.sleep2s]) := by
    simp [detectUSBCycle, cycleEvents, Function.comp_def]
  have hAall : ∀ x ∈ ((filterRemovable ps).filter (fun c => !elemB c prev)).map
      (fun c => MonAct.send ⟨c, false⟩),
      isAttachAct x = true ∧ isDetachAct x = false ∧ isSendAct x = true ∧
        isSetPrevAct x = false := by
    intro x hx
    obtain ⟨y, _, hy⟩ := List.mem_map.mp hx
    rw [← hy]
    simp [isAttachAct, isDetachAct, isSendAct, isSetPrevAct]
  have hDall : ∀ x ∈ (prev.filter (fun q => !elemB q (filterRemovable ps))).map
      (fun q => MonAct.send ⟨q, true⟩),
      isAttachAct x = false ∧ isDetachAct x = true ∧ isSendAct x = true ∧
        isSetPrevAct x = false := by
    intro x hx
    obtain ⟨y, _, hy⟩ := List.mem_map.mp hx
    rw [← hy]
    simp [isAttachAct, isDetachAct, isSendAct, isSetPrevAct]
  set UA := ((filterRemovable ps).filter (fun c => !elemB c prev)).map
    (fun c => MonAct.send ⟨c, false⟩) with hUA
  set UD := (prev.filter (fun q => !elemB q (filterRemovable ps))).map
    (fun q => MonAct.send ⟨q, true⟩) with hUD
  have hidx : ∀ k (hk : k < ((detectUSBCycle prev (some ps)).1).length),
      (k < UA.length ∧ ((detectUSBCycle prev (some ps)).1).get ⟨k, hk⟩ ∈ UA) ∨
      (UA.length ≤ k ∧ k < UA.length + UD.length ∧
        ((detectUSBCycle prev (some ps)).1).get ⟨k, hk⟩ ∈ UD) ∨
      (UA.length + UD.length ≤ k ∧
        ((detectUSBCycle prev (some ps)).1).get ⟨k, hk⟩ ∈
          [MonAct.setPrev (filterRemovable ps), MonAct.sleep2s]) := by
    intro k hk
    have hk' : k < (UA ++ (UD ++ [MonAct.setPrev (filterRemovable ps),
        MonAct.sleep2s])).length := by
      rw [← htr]; exact hk
    have hget : ((detectUSBCycle prev (some ps)).1).get ⟨k, hk⟩ =
        (UA ++ (UD ++ [MonAct.setPrev (filterRemovable ps), MonAct.sleep2s])).get ⟨k, hk'⟩ := by
      simp only [List.get_eq_getElem]
      exact List.getElem_of_eq htr hk
    by_cases h1 : k < UA.length
    · left
      refine ⟨h1, ?_⟩
      rw [hget]
      simp only [List.get_eq_getElem]
      rw [List.getElem_append_left h1]
      exact List.getElem_mem _
    · right
      push_neg at h1
      by_cases h2 : k < UA.length + UD.length
      · left
        refine ⟨h1, h2, ?_⟩
        rw [hget]
        simp only [List.get_eq_getElem]
        rw [List.getElem_append_right h1]
        have h3 : k - UA.length < UD.length := by omega
        rw [List.getElem_append_left h3]
        exact List.getElem_mem _
      · right
        push_neg at h2
        refine ⟨h2, ?_⟩
        rw [hget]
        simp only [List.get_eq_getElem]
        rw [List.getElem_append_right h1]
        have h3 : UD.length ≤ k - UA.length := by omega
        rw [List.getElem_append_right h3]
        exact List.getElem_mem _
  constructor
  · intro i j hi hj hatt hdet
    rcases hidx i hi with ⟨h1, _⟩ | ⟨_, _, hm⟩ | ⟨_, hm⟩
    · rcases hidx j hj with ⟨_, hm'⟩ | ⟨h2, _, _⟩ | ⟨h2, _⟩
      · rw [(hAall _ hm').2.1] at hdet
        exact absurd hdet (by simp)
      · omega
      · omega
    · rw [(hDall _ hm).1] at hatt
      exact absurd hatt (by simp)
    · simp only [List.mem_cons, List.mem_singleton] at hm
      rcases hm with hm | hm | hm
      · rw [hm] at hatt; simp [isAttachAct] at hatt
      · rw [hm] at hatt; simp [isAttachAct] at hatt
      · simp at hm
  · intro i j hi hj hset hsend
    have hj' : j < UA.length + UD.length := by
      rcases hidx j hj with ⟨h1, _⟩ | ⟨_, h2, _⟩ | ⟨_, hm⟩
      · omega
      · omega
      · simp only [List.mem_cons, List.mem_singleton] at hm
        rcases hm with hm | hm | hm
        · rw [hm] at hsend; simp [isSendAct] at hsend
        · rw [hm] at hsend; simp [isSendAct] at hsend
        · simp at hm
    have hi' : UA.length + UD.length ≤ i := by
      rcases hidx i hi with ⟨_, hm⟩ | ⟨_, _, hm⟩ | ⟨h2, _⟩
      · rw [(hAall _ hm).2.2.2] at hset
        exact absurd hset (by simp)
      · rw [(hDall _ hm).2.2.2] at hset
        exact absurd hset (by simp)
      · exact h2
    omega

/-- C7: A walk error during the counting pass never makes the run fail:
the counting walk always completes without error on any tree (broken
entries are merely skipped), the outcome of the run does not depend on the
tree the counting pass observed at all, and a run whose copy pass
encounters no broken entries and no I/O failures still returns success,
whatever the counting pass saw; only the total can be off. -/
theorem claim_C7_count_errors_not_fatal (homeDir destPath : FsPath) (t1 t1' t2 : Entry)
    (env : IOEnv) :
    (∀ (a p : FsPath) (n : Nat), (walk1 (countFn a) p t1 n).2 = none) ∧
    ((copyHomeFolder homeDir destPath t1 t2 env).outcome =
      (copyHomeFolder homeDir destPath t1' t2 env).outcome) ∧
    (wfE t2 = true → okTreeE (destHome destPath) homeDir t2 = true →
      (∀ f ∈ inclFiles (destHome destPath) homeDir ['.'] t2, env.copyFails f.src = none) →
      (∀ d ∈ inclDirs (destHome destPath) homeDir ['.'] t2,
        env.mkdirFails (goJoin (destHome destPath) d.rel) = false) →
      env.mkdirFails (destHome destPath) = false →
      (copyHomeFolder homeDir destPath t1 t2 env).outcome = none) := by
  refine ⟨?_, ?_, ?_⟩
  · intro a p n
    rw [walk_count t1 a p ['.'] n]
  · simp only [copyHomeFolder]
    by_cases hmk0 : env.mkdirFails (destPath ++ '/' :: ("home_backup".data))
    · simp [hmk0]
    · have hmkf : env.mkdirFails (destPath ++ '/' :: ("home_backup".data)) = false := by
        simpa using hmk0
      simp only [hmkf, if_false, Bool.false_eq_true]
      rcases hr1 : walk1 (copyFn homeDir (destPath ++ '/' :: ("home_backup".data))
          (destPath ++ '/' :: ("home_backup".data))
          ((walk1 (countFn (destPath ++ '/' :: ("home_backup".data))) homeDir t1 0).1) env)
          homeDir t2 ⟨0, [FSOp.mkdirAll (destPath ++ '/' :: ("home_backup".data)) 493], []⟩
        with ⟨sA, rA⟩
      rcases hr2 : walk1 (copyFn homeDir (destPath ++ '/' :: ("home_backup".data))
          (destPath ++ '/' :: ("home_backup".data))
          ((walk1 (countFn (destPath ++ '/' :: ("home_backup".data))) homeDir t1' 0).1) env)
          homeDir t2 ⟨0, [FSOp.mkdirAll (destPath ++ '/' :: ("home_backup".data)) 493], []⟩
        with ⟨sB, rB⟩
      have heq : rA = rB := by
        have := walk_copy_status_indep t2 homeDir (destPath ++ '/' :: ("home_backup".data))
          (destPath ++ '/' :: ("home_backup".data)) env
          ((walk1 (countFn (destPath ++ '/' :: ("home_backup".data))) homeDir t1 0).1)
          ((walk1 (countFn (destPath ++ '/' :: ("home_backup".data))) homeDir t1' 0).1)
          homeDir
          ⟨0, [FSOp.mkdirAll (destPath ++ '/' :: ("home_backup".data)) 493], []⟩
          ⟨0, [FSOp.mkdirAll (destPath ++ '/' :: ("home_backup".data)) 493], []⟩
        rw [hr1, hr2] at this
        simpa using this
      subst heq
      match rA with
      | none => simp
      | some .skipDir => simp
      | some (.fail e) => simp
  · intro hw hok hcf hmk hmk0
    rw [copyHomeFolder_ok homeDir destPath t1 t2 env hw hok hcf hmk hmk0]

/-- Witness for C7: counting pass over a tree with a broken entry skips
it, and the run still succeeds with a clean copy-pass tree. -/
theorem claim_C7_count_errors_not_fatal_witness :
    (copyHomeFolder ("/h".data) ("/d".data)
      (.dir ("h".data) 493 [.broken ("bad".data), .file ("a.txt".data) [1] 420])
      (.dir ("h".data) 493 [.file ("a.txt".data) [1] 420])
      ⟨fun _ => none, fun _ => false⟩).outcome = none := by
  exact (claim_C7_count_errors_not_fatal ("/h".data) ("/d".data)
    (.dir ("h".data) 493 [.broken ("bad".data), .file ("a.txt".data) [1] 420])
    (.dir ("h".data) 493 [.broken ("bad".data), .file ("a.txt".data) [1] 420])
    (.dir ("h".data) 493 [.file ("a.txt".data) [1] 420])
    ⟨fun _ => none, fun _ => false⟩).2.2
    (by decide) (by decide)
    (by intro f hf; rfl) (by intro d hd; rfl) rfl

/- ------------------------------------------------------------------ -/
/- Synchronizer claims                                                 -/
/- ------------------------------------------------------------------ -/

/-- C2: When both passes observe the same non-excluded files (N of them)
and the run completes, the run emits exactly N progress updates whose
counter values are 1, 2, ..., N, strictly increasing with no repeats or
gaps, and the denominator totalFilesExpected is computed before the copy
pass, equals N, and is the same in every update of the run. -/
theorem claim_C2_progress (homeDir destPath : FsPath) (t1 t2 : Entry) (env : IOEnv) (N : Nat)
    (hw : wfE t2 = true)
    (hsame : (inclFiles (destHome destPath) homeDir ['.'] t1).map FileRec.src =
      (inclFiles (destHome destPath) homeDir ['.'] t2).map FileRec.src)
    (hN : N = (inclFiles (destHome destPath) homeDir ['.'] t2).length)
    (hok : okTreeE (destHome destPath) homeDir t2 = true)
    (hcf : ∀ f ∈ inclFiles (destHome destPath) homeDir ['.'] t2, env.copyFails f.src = none)
    (hmk : ∀ d ∈ inclDirs (destHome destPath) homeDir ['.'] t2,
      env.mkdirFails (goJoin (destHome destPath) d.rel) = false)
    (hmk0 : env.mkdirFails (destHome destPath) = false) :
    (copyHomeFolder homeDir destPath t1 t2 env).total = N ∧
    (copyHomeFolder homeDir destPath t1 t2 env).events =
      (List.range N).map (fun i => (i + 1, N)) := by
  have hlen : (inclFiles (destHome destPath) homeDir ['.'] t1).length =
      (inclFiles (destHome destPath) homeDir ['.'] t2).length := by
    have := congrArg List.length hsame
    simpa using this
  rw [copyHomeFolder_ok homeDir destPath t1 t2 env hw hok hcf hmk hmk0]
  refine ⟨by simp [hlen, hN], ?_⟩
  simp only [hlen, ← hN]
  unfold evRange
  apply List.map_congr_left
  intro i _
  simp [Prod.ext_iff]
  omega

/-- Witness for C2 on the spec scenario: home with a.txt, a hidden
directory and sub/b.txt: total 2, updates (1,2) then (2,2). -/
theorem claim_C2_progress_witness :
    (copyHomeFolder ("/h".data) ("/d".data)
      (.dir ("h".data) 493 [.file ("a.txt".data) [1, 2] 420,
        .dir (".hidden".data) 493 [.file ("x.txt".data) [3] 420],
        .dir ("sub".data) 493 [.file ("b.txt".data) [] 420]])
      (.dir ("h".data) 493 [.file ("a.txt".data) [1, 2] 420,
        .dir (".hidden".data) 493 [.file ("x.txt".data) [3] 420],
        .dir ("sub".data) 493 [.file ("b.txt".data) [] 420]])
      ⟨fun _ => none, fun _ => false⟩).total = 2 ∧
    (copyHomeFolder ("/h".data) ("/d".data)
      (.dir ("h".data) 493 [.file ("a.txt".data) [1, 2] 420,
        .dir (".hidden".data) 493 [.file ("x.txt".data) [3] 420],
        .dir ("sub".data) 493 [.file ("b.txt".data) [] 420]])
      (.dir ("h".data) 493 [.file ("a.txt".data) [1, 2] 420,
        .dir (".hidden".data) 493 [.file ("x.txt".data) [3] 420],
        .dir ("sub".data) 493 [.file ("b.txt".data) [] 420]])
      ⟨fun _ => none, fun _ => false⟩).events =
        (List.range 2).map (fun i => (i + 1, 2)) := by
  exact claim_C2_progress ("/h".data) ("/d".data)
    (.dir ("h".data) 493 [.file ("a.txt".data) [1, 2] 420,
      .dir (".hidden".data) 493 [.file ("x.txt".data) [3] 420],
      .dir ("sub".data) 493 [.file ("b.txt".data) [] 420]])
    (.dir ("h".data) 493 [.file ("a.txt".data) [1, 2] 420,
      .dir (".hidden".data) 493 [.file ("x.txt".data) [3] 420],
      .dir ("sub".data) 493 [.file ("b.txt".data) [] 420]])
    ⟨fun _ => none, fun _ => false⟩ 2
    (by decide) rfl (by decide) (by decide)
    (by intro f hf; rfl) (by intro d hd; rfl) rfl

theorem evRange_length (c k total : Nat) : (evRange c k total).length = k := by
  simp [evRange]

/-- C4: When copyFile fails on the N-th non-excluded file of the copy
pass (any open, create, copy or chmod error), after the N-1 earlier files
succeeded, the run aborts immediately with a file-copy failure naming that
file, no progress update is emitted for file N, and exactly N-1 progress
updates were emitted in total - there is no continue-on-error mode. -/
theorem claim_C4_fail_fast (homeDir destPath : FsPath) (t1 t2 : Entry) (env : IOEnv)
    (N : Nat) (pre post : List FileRec) (fq : FileRec)
    (hw : wfE t2 = true)
    (hok : okTreeE (destHome destPath) homeDir t2 = true)
    (hsplit : inclFiles (destHome destPath) homeDir ['.'] t2 = pre ++ fq :: post)
    (hlen : pre.length = N - 1) (hN1 : 1 ≤ N)
    (hpre : ∀ f ∈ pre, env.copyFails f.src = none)
    (hfail : env.copyFails fq.src ≠ none)
    (hmk : ∀ d ∈ inclDirs (destHome destPath) homeDir ['.'] t2,
      env.mkdirFails (goJoin (destHome destPath) d.rel) = false)
    (hmk0 : env.mkdirFails (destHome destPath) = false) :
    (copyHomeFolder homeDir destPath t1 t2 env).outcome =
      some (.copyErr fq.src) ∧
    (copyHomeFolder homeDir destPath t1 t2 env).events =
      evRange 0 (N - 1) ((copyHomeFolder homeDir destPath t1 t2 env).total) ∧
    (copyHomeFolder homeDir destPath t1 t2 env).events.length = N - 1 := by
  obtain ⟨h1, h2, h3⟩ := walk_copy_fail t2 hw (destHome destPath) homeDir (destHome destPath)
    ((walk1 (countFn (destHome destPath)) homeDir t1 0).1) env homeDir ['.']
    ⟨0, [.mkdirAll (destHome destPath) 493], []⟩ pre fq post
    (homeDir_pathOk homeDir) hok hsplit hpre hfail hmk
  simp only [copyHomeFolder]
  rw [show destPath ++ '/' :: ("home_backup".data) = destHome destPath from rfl]
  have hmk0' : env.mkdirFails (destHome destPath) = false := hmk0
  simp only [hmk0', if_false, Bool.false_eq_true]
  rcases hres : walk1 (copyFn homeDir (destHome destPath) (destHome destPath)
      ((walk1 (countFn (destHome destPath)) homeDir t1 0).1) env) homeDir t2
      ⟨0, [FSOp.mkdirAll (destHome destPath) 493], []⟩ with ⟨s, rr⟩
  rw [hres] at h1 h2 h3
  simp only at h1 h2 h3
  subst h3
  refine ⟨rfl, ?_, ?_⟩
  · show s.events = evRange 0 (N - 1) ((walk1 (countFn (destHome destPath)) homeDir t1 0).1)
    rw [h2, hlen]
    simp
  · show s.events.length = N - 1
    rw [h2, hlen]
    simp [evRange_length]

/-- Witness for C4: the second (N = 2) file sub/b.txt fails to copy: the
run fails with that path, and exactly one update, (1, 2), was emitted. -/
theorem claim_C4_fail_fast_witness :
    (copyHomeFolder ("/h".data) ("/d".data)
      (.dir ("h".data) 493 [.file ("a.txt".data) [1, 2] 420,
        .dir ("sub".data) 493 [.file ("b.txt".data) [] 420]])
      (.dir ("h".data) 493 [.file ("a.txt".data) [1, 2] 420,
        .dir ("sub".data) 493 [.file ("b.txt".data) [] 420]])
      ⟨fun p => if p = ("/h/sub/b.txt".data) then some .openFail else none,
        fun _ => false⟩).outcome = some (.copyErr ("/h/sub/b.txt".data)) ∧
    (copyHomeFolder ("/h".data) ("/d".data)
      (.dir ("h".data) 493 [.file ("a.txt".data) [1, 2] 420,
        .dir ("sub".data) 493 [.file ("b.txt".data) [] 420]])
      (.dir ("h".data) 493 [.file ("a.txt".data) [1, 2] 420,
        .dir ("sub".data) 493 [.file ("b.txt".data) [] 420]])
      ⟨fun p => if p = ("/h/sub/b.txt".data) then some .openFail else none,
        fun _ => false⟩).events =
      evRange 0 (2 - 1) ((copyHomeFolder ("/h".data) ("/d".data)
        (.dir ("h".data) 493 [.file ("a.txt".data) [1, 2] 420,
          .dir ("sub".data) 493 [.file ("b.txt".data) [] 420]])
        (.dir ("h".data) 493 [.file ("a.txt".data) [1, 2] 420,
          .dir ("sub".data) 493 [.file ("b.txt".data) [] 420]])
        ⟨fun p => if p = ("/h/sub/b.txt".data) then some .openFail else none,
          fun _ => false⟩).total) ∧
    (copyHomeFolder ("/h".data) ("/d".data)
      (.dir ("h".data) 493 [.file ("a.txt".data) [1, 2] 420,
        .dir ("sub".data) 493 [.file ("b.txt".data) [] 420]])
      (.dir ("h".data) 493 [.file ("a.txt".data) [1, 2] 420,
        .dir ("sub".data) 493 [.file ("b.txt".data) [] 420]])
      ⟨fun p => if p = ("/h/sub/b.txt".data) then some .openFail else none,
        fun _ => false⟩).events.length = 2 - 1 := by
  exact claim_C4_fail_fast ("/h".data) ("/d".data)
    (.dir ("h".data) 493 [.file ("a.txt".data) [1, 2] 420,
      .dir ("sub".data) 493 [.file ("b.txt".data) [] 420]])
    (.dir ("h".data) 493 [.file ("a.txt".data) [1, 2] 420,
      .dir ("sub".data) 493 [.file ("b.txt".data) [] 420]])
    ⟨fun p => if p = ("/h/sub/b.txt".data) then some .openFail else none, fun _ => false⟩
    2 [⟨"/h/a.txt".data, "a.txt".data, [1, 2], 420⟩] []
    ⟨"/h/sub/b.txt".data, ("sub/b.txt".data), [], 420⟩
    (by decide) (by decide) (by decide) (by decide) (by decide)
    (by intro f hf
        simp only [List.mem_singleton] at hf
        subst hf
        decide)
    (by decide)
    (by intro d hd; rfl) rfl

/-- Witness for C10: with previous snapshot [/mnt/a] and current removable
partition mounted at /mnt/b, the cycle trace is [attach /mnt/b,
detach /mnt/a, setPrev, sleep]: the attach index 0 precedes the detach
index 1, and the snapshot assignment at index 2 follows the send at 1. -/
theorem claim_C10_cycle_order_witness : (0 : Nat) < 1 ∧ (1 : Nat) < 2 := by
  have h := claim_C10_cycle_order ["/mnt/a".data]
    [⟨"/dev/sdb1".data, "/mnt/b".data⟩]
  exact ⟨h.1 0 1 (by decide) (by decide) (by decide) (by decide),
    h.2 2 1 (by decide) (by decide) (by decide) (by decide)⟩

/-- C9: Every filesystem write of a run (directory creation or file
write, whatever the outcome) targets the backup root
filepath.Join(destPath, "home_backup") itself or a path strictly below
it; nothing outside the destination subtree is ever touched. -/
theorem claim_C9_frame (homeDir destPath : FsPath) (t1 t2 : Entry) (env : IOEnv)
    (hw : wfE t2 = true) (hd : t2.isDir = true) :
    ∀ op ∈ (copyHomeFolder homeDir destPath t1 t2 env).ops,
      op.target = destHome destPath ∨
      hasPfx op.target (destHome destPath ++ ['/']) = true := by
  intro op hop
  by_cases hmf : env.mkdirFails (destPath ++ '/' :: ("home_backup".data)) = true
  · simp only [copyHomeFolder, hmf, if_true] at hop
    simp at hop
  · have hmf' : env.mkdirFails (destHome destPath) = false := by
      simpa [destHome] using hmf
    have hEq : (copyHomeFolder homeDir destPath t1 t2 env).ops =
        (walk1 (copyFn homeDir (destHome destPath) (destHome destPath)
          ((walk1 (countFn (destHome destPath)) homeDir t1 0).1) env) homeDir t2
          ⟨0, [.mkdirAll (destHome destPath) 493], []⟩).1.ops := by
      simp only [copyHomeFolder]
      rw [show destPath ++ '/' :: ("home_backup".data) = destHome destPath from rfl]
      simp only [hmf', if_false, Bool.false_eq_true]
      rcases hres : walk1 (copyFn homeDir (destHome destPath) (destHome destPath)
          ((walk1 (countFn (destHome destPath)) homeDir t1 0).1) env) homeDir t2
          ⟨0, [FSOp.mkdirAll (destHome destPath) 493], []⟩ with ⟨s, rr⟩
      rcases rr with _ | r
      · rfl
      · cases r <;> rfl
    rw [hEq] at hop
    obtain ⟨Δ, hops, htg⟩ := walk_copy_targets t2 hw (destHome destPath) homeDir
      (destHome destPath) ((walk1 (countFn (destHome destPath)) homeDir t1 0).1) env
      homeDir ['.'] ⟨0, [.mkdirAll (destHome destPath) 493], []⟩ (homeDir_pathOk homeDir)
    rw [hops] at hop
    simp only [List.cons_append, List.nil_append, List.mem_cons] at hop
    rcases hop with rfl | hop
    · exact Or.inl rfl
    · have := htg op hop
      rw [hd] at this
      simp only [if_true, List.nil_append, List.mem_map] at this
      obtain ⟨q, _, hq⟩ := this
      by_cases hqd : q = ['.']
      · subst hqd
        rw [goJoin_dot] at hq
        exact Or.inl hq.symm
      · right
        rw [← hq, goJoin_ne_dot hqd]
        exact hasPfx_iff.mpr ⟨q, by simp⟩

/-- Witness for C9: on a run over the standard tree, every recorded write
targets /d/home_backup or a path having /d/home_backup/ as a prefix. -/
theorem claim_C9_frame_witness :
    wfE (.dir ("h".data) 493 [.file ("a.txt".data) [1, 2] 420,
      .dir (".hidden".data) 493 [.file ("x.txt".data) [3] 420],
      .dir ("sub".data) 493 [.file ("b.txt".data) [] 420]]) = true ∧
    ∀ op ∈ (copyHomeFolder ("/h".data) ("/d".data)
      (.dir ("h".data) 493 [.file ("a.txt".data) [1, 2] 420,
        .dir (".hidden".data) 493 [.file ("x.txt".data) [3] 420],
        .dir ("sub".data) 493 [.file ("b.txt".data) [] 420]])
      (.dir ("h".data) 493 [.file ("a.txt".data) [1, 2] 420,
        .dir (".hidden".data) 493 [.file ("x.txt".data) [3] 420],
        .dir ("sub".data) 493 [.file ("b.txt".data) [] 420]])
      ⟨fun _ => none, fun _ => false⟩).ops,
      op.target = destHome ("/d".data) ∨
      hasPfx op.target (destHome ("/d".data) ++ ['/']) = true := by
  refine ⟨by decide, ?_⟩
  exact claim_C9_frame ("/h".data) ("/d".data)
    (.dir ("h".data) 493 [.file ("a.txt".data) [1, 2] 420,
      .dir (".hidden".data) 493 [.file ("x.txt".data) [3] 420],
      .dir ("sub".data) 493 [.file ("b.txt".data) [] 420]])
    (.dir ("h".data) 493 [.file ("a.txt".data) [1, 2] 420,
      .dir (".hidden".data) 493 [.file ("x.txt".data) [3] 420],
      .dir ("sub".data) 493 [.file ("b.txt".data) [] 420]])
    ⟨fun _ => none, fun _ => false⟩ (by decide) (by decide)

theorem exclRels_ne_dot {a p : FsPath} {t : Entry} (hw : wfE t = true)
    (hex : excluded a p = false) :
    ∀ q ∈ exclRels a p ['.'] t, q ≠ ['.'] := by
  intro q hq
  cases t with
  | file n c m => simp [exclRels, hex] at hq
  | broken n => simp [exclRels, hex] at hq
  | dir n m cs =>
    simp only [exclRels, hex, Bool.false_eq_true, if_false] at hq
    obtain ⟨c, hc, hqc⟩ := mem_exclRelsL hq
    have hwc : wfE c = true := by
      simp only [wfE, Bool.and_eq_true] at hw
      exact wfL_mem hw.2 hc
    have hg := goodName_iff.mp (wfE_name hwc)
    exact allRels_ne_dot c hwc _ (childR_ne_dot hg.1) q (exclRels_sub_all c _ _ _ _ hqc)

/-- C1: Exclusion is effective in both passes: the run's total counts
exactly the non-excluded files of the first walk (hidden base names,
configured substrings and destination-prefixed paths are pruned with
their whole subtrees by the shared exclusion tests); no excluded relative
path is the relative path of a counted file; and after the run, no
excluded relative path of the copy-pass tree exists in the destination,
neither as a file nor as a directory. -/
theorem claim_C1_exclusion (homeDir destPath : FsPath) (t1 t2 : Entry) (env : IOEnv)
    (hw1 : wfE t1 = true) (hw2 : wfE t2 = true) (hd : t2.isDir = true)
    (hroot : excluded (destHome destPath) homeDir = false) :
    (copyHomeFolder homeDir destPath t1 t2 env).total =
      (inclFiles (destHome destPath) homeDir ['.'] t1).length ∧
    (∀ q ∈ exclRels (destHome destPath) homeDir ['.'] t1,
      ∀ f ∈ inclFiles (destHome destPath) homeDir ['.'] t1, f.rel ≠ q) ∧
    (∀ q ∈ exclRels (destHome destPath) homeDir ['.'] t2,
      (applyOps DestFS.empty (copyHomeFolder homeDir destPath t1 t2 env).ops).files
        (goJoin (destHome destPath) q) = none ∧
      (applyOps DestFS.empty (copyHomeFolder homeDir destPath t1 t2 env).ops).dirs
        (goJoin (destHome destPath) q) = none) := by
  have hTarget : ∀ op ∈ (copyHomeFolder homeDir destPath t1 t2 env).ops,
      op.target = destHome destPath ∨
      ∃ q ∈ inclRels (destHome destPath) homeDir ['.'] t2,
        op.target = goJoin (destHome destPath) q := by
    intro op hop
    by_cases hmf : env.mkdirFails (destPath ++ '/' :: ("home_backup".data)) = true
    · simp only [copyHomeFolder, hmf, if_true] at hop
      simp at hop
    · have hmf' : env.mkdirFails (destHome destPath) = false := by
        simpa [destHome] using hmf
      have hEq : (copyHomeFolder homeDir destPath t1 t2 env).ops =
          (walk1 (copyFn homeDir (destHome destPath) (destHome destPath)
            ((walk1 (countFn (destHome destPath)) homeDir t1 0).1) env) homeDir t2
            ⟨0, [.mkdirAll (destHome destPath) 493], []⟩).1.ops := by
        simp only [copyHomeFolder]
        rw [show destPath ++ '/' :: ("home_backup".data) = destHome destPath from rfl]
        simp only [hmf', if_false, Bool.false_eq_true]
        rcases hres : walk1 (copyFn homeDir (destHome destPath) (destHome destPath)
            ((walk1 (countFn (destHome destPath)) homeDir t1 0).1) env) homeDir t2
            ⟨0, [FSOp.mkdirAll (destHome destPath) 493], []⟩ with ⟨s, rr⟩
        rcases rr with _ | r
        · rfl
        · cases r <;> rfl
      rw [hEq] at hop
      obtain ⟨Δ, hops, htg⟩ := walk_copy_targets t2 hw2 (destHome destPath) homeDir
        (destHome destPath) ((walk1 (countFn (destHome destPath)) homeDir t1 0).1) env
        homeDir ['.'] ⟨0, [.mkdirAll (destHome destPath) 493], []⟩ (homeDir_pathOk homeDir)
      rw [hops] at hop
      simp only [List.cons_append, List.nil_append, List.mem_cons] at hop
      rcases hop with rfl | hop
      · exact Or.inl rfl
      · have := htg op hop
        rw [hd] at this
        simp only [if_true, List.nil_append, List.mem_map] at this
        obtain ⟨q, hq, hqe⟩ := this
        exact Or.inr ⟨q, hq, hqe.symm⟩
  refine ⟨?_, ?_, ?_⟩
  · have htot : (copyHomeFolder homeDir destPath t1 t2 env).total =
        (walk1 (countFn (destHome destPath)) homeDir t1 0).1 := by
      simp only [copyHomeFolder]
      rw [show destPath ++ '/' :: ("home_backup".data) = destHome destPath from rfl]
      by_cases hmf : env.mkdirFails (destHome destPath) = true
      · simp only [hmf, if_true]
      · have hmf' : env.mkdirFails (destHome destPath) = false := by simpa using hmf
        simp only [hmf', if_false, Bool.false_eq_true]
        rcases hres : walk1 (copyFn homeDir (destHome destPath) (destHome destPath)
            ((walk1 (countFn (destHome destPath)) homeDir t1 0).1) env) homeDir t2
            ⟨0, [FSOp.mkdirAll (destHome destPath) 493], []⟩ with ⟨s, rr⟩
        rcases rr with _ | r
        · rfl
        · cases r <;> rfl
    rw [htot, walk_count t1 (destHome destPath) homeDir ['.'] 0]
    simp
  · intro q hq f hf he
    exact excl_incl_disj t1 hw1 _ _ _ q hq (he ▸ inclFiles_rel_mem t1 _ _ _ f hf)
  · intro q hq
    have hqd : q ≠ ['.'] := exclRels_ne_dot hw2 hroot q hq
    have hnin : q ∉ inclRels (destHome destPath) homeDir ['.'] t2 :=
      excl_incl_disj t2 hw2 _ _ _ q hq
    constructor
    · by_contra hne
      rcases applyOps_dom_files _ DestFS.empty _ hne with h0 | ⟨op, hop, ht⟩
      · exact h0 rfl
      · rcases hTarget op hop with h1 | ⟨q', hq', h2⟩
        · have he : goJoin (destHome destPath) q = goJoin (destHome destPath) ['.'] := by
            rw [goJoin_dot, ← ht, h1]
          exact hqd (goJoin_inj he)
        · have he : goJoin (destHome destPath) q = goJoin (destHome destPath) q' := by
            rw [← ht, h2]
          exact hnin (by rw [goJoin_inj he]; exact hq')
    · by_contra hne
      rcases applyOps_dom_dirs _ DestFS.empty _ hne with h0 | ⟨op, hop, ht⟩
      · exact h0 rfl
      · rcases hTarget op hop with h1 | ⟨q', hq', h2⟩
        · have he : goJoin (destHome destPath) q = goJoin (destHome destPath) ['.'] := by
            rw [goJoin_dot, ← ht, h1]
          exact hqd (goJoin_inj he)
        · have he : goJoin (destHome destPath) q = goJoin (destHome destPath) q' := by
            rw [← ht, h2]
          exact hnin (by rw [goJoin_inj he]; exact hq')

/-- Witness for C1: in a run over a home tree containing the hidden
directory .hidden with a file x.txt inside, the total counts only the two
visible files, and neither the excluded file .hidden/x.txt nor the
excluded directory .hidden exists in the destination afterwards. -/
theorem claim_C1_exclusion_witness :
    (copyHomeFolder ("/h".data) ("/d".data)
      (.dir ("h".data) 493 [.file ("a.txt".data) [1, 2] 420,
        .dir (".hidden".data) 493 [.file ("x.txt".data) [3] 420],
        .dir ("sub".data) 493 [.file ("b.txt".data) [] 420]])
      (.dir ("h".data) 493 [.file ("a.txt".data) [1, 2] 420,
        .dir (".hidden".data) 493 [.file ("x.txt".data) [3] 420],
        .dir ("sub".data) 493 [.file ("b.txt".data) [] 420]])
      ⟨fun _ => none, fun _ => false⟩).total =
    (inclFiles (destHome ("/d".data)) ("/h".data) ['.']
      (.dir ("h".data) 493 [.file ("a.txt".data) [1, 2] 420,
        .dir (".hidden".data) 493 [.file ("x.txt".data) [3] 420],
        .dir ("sub".data) 493 [.file ("b.txt".data) [] 420]])).length ∧
    (applyOps DestFS.empty (copyHomeFolder ("/h".data) ("/d".data)
      (.dir ("h".data) 493 [.file ("a.txt".data) [1, 2] 420,
        .dir (".hidden".data) 493 [.file ("x.txt".data) [3] 420],
        .dir ("sub".data) 493 [.file ("b.txt".data) [] 420]])
      (.dir ("h".data) 493 [.file ("a.txt".data) [1, 2] 420,
        .dir (".hidden".data) 493 [.file ("x.txt".data) [3] 420],
        .dir ("sub".data) 493 [.file ("b.txt".data) [] 420]])
      ⟨fun _ => none, fun _ => false⟩).ops).files
      (goJoin (destHome ("/d".data)) (".hidden/x.txt".data)) = none ∧
    (applyOps DestFS.empty (copyHomeFolder ("/h".data) ("/d".data)
      (.dir ("h".data) 493 [.file ("a.txt".data) [1, 2] 420,
        .dir (".hidden".data) 493 [.file ("x.txt".data) [3] 420],
        .dir ("sub".data) 493 [.file ("b.txt".data) [] 420]])
      (.dir ("h".data) 493 [.file ("a.txt".data) [1, 2] 420,
        .dir (".hidden".data) 493 [.file ("x.txt".data) [3] 420],
        .dir ("sub".data) 493 [.file ("b.txt".data) [] 420]])
      ⟨fun _ => none, fun _ => false⟩).ops).dirs
      (goJoin (destHome ("/d".data)) (".hidden".data)) = none := by
  have h := claim_C1_exclusion ("/h".data) ("/d".data)
    (.dir ("h".data) 493 [.file ("a.txt".data) [1, 2] 420,
      .dir (".hidden".data) 493 [.file ("x.txt".data) [3] 420],
      .dir ("sub".data) 493 [.file ("b.txt".data) [] 420]])
    (.dir ("h".data) 493 [.file ("a.txt".data) [1, 2] 420,
      .dir (".hidden".data) 493 [.file ("x.txt".data) [3] 420],
      .dir ("sub".data) 493 [.file ("b.txt".data) [] 420]])
    ⟨fun _ => none, fun _ => false⟩ (by decide) (by decide) (by decide) (by decide)
  exact ⟨h.1, (h.2.2 (".hidden/x.txt".data) (by decide)).1,
    (h.2.2 (".hidden".data) (by decide)).2⟩

theorem inclRelsL_ne_dot {a p : FsPath} {cs : List Entry} (hw : wfL cs = true) :
    ∀ q ∈ inclRelsL a p ['.'] cs, q ≠ ['.'] := by
  intro q hq
  obtain ⟨c, hc, hqc⟩ := mem_inclRelsL hq
  have hwc := wfL_mem hw hc
  have hg := goodName_iff.mp (wfE_name hwc)
  exact allRels_ne_dot c hwc _ (childR_ne_dot hg.1) q (inclRels_sub_all c _ _ _ _ hqc)

theorem goJoin_ne_self {d q : FsPath} (h : q ≠ ['.']) : goJoin d q ≠ d := by
  intro he
  exact h (goJoin_inj (he.trans (goJoin_dot d).symm))

/-- C3 counterexample: a home directory with permission bits 0700 (448).
The run succeeds and the home directory itself is a non-excluded source
directory, yet its mirror - the destination root - carries bits 0755
(493), not 448: os.MkdirAll(destHomeDir, 0755) creates it before the
walk, and the walk's later MkdirAll with the source mode is a no-op on
the existing directory, so directory permission bits are NOT preserved
for the root. The claim holds only for the strict subtree. -/
theorem claim_C3_counterexample :
    (copyHomeFolder ("/h".data) ("/d".data) (.dir ("h".data) 448 [])
      (.dir ("h".data) 448 []) ⟨fun _ => none, fun _ => false⟩).outcome = none ∧
    (⟨"/h".data, ['.'], 448⟩ : DirRec) ∈ inclDirs (destHome ("/d".data)) ("/h".data) ['.']
      (.dir ("h".data) 448 []) ∧
    (applyOps DestFS.empty (copyHomeFolder ("/h".data) ("/d".data) (.dir ("h".data) 448 [])
      (.dir ("h".data) 448 []) ⟨fun _ => none, fun _ => false⟩).ops).dirs
      (goJoin (destHome ("/d".data)) ['.']) = some 493 ∧
    (applyOps DestFS.empty (copyHomeFolder ("/h".data) ("/d".data) (.dir ("h".data) 448 [])
      (.dir ("h".data) 448 []) ⟨fun _ => none, fun _ => false⟩).ops).dirs
      (goJoin (destHome ("/d".data)) ['.']) ≠ some 448 := by
  refine ⟨by decide, by decide, by decide, by decide⟩

/-- C3 (amended): After a run that returns Success, every non-excluded
source file of the copy-pass tree exists at its mirrored destination path
with identical byte content and identical permission bits, and every
non-excluded source directory OTHER THAN the walk root exists at its
mirrored destination path with identical permission bits; the destination
root itself (the mirror of the home directory) exists with permission
bits 0755 regardless of the home directory's own bits. -/
theorem claim_C3_amended (homeDir destPath : FsPath) (t1 : Entry) (env : IOEnv)
    (n : FsPath) (m : Nat) (cs : List Entry)
    (hw2 : wfE (.dir n m cs) = true)
    (hroot : excluded (destHome destPath) homeDir = false)
    (hout : (copyHomeFolder homeDir destPath t1 (.dir n m cs) env).outcome = none) :
    (∀ f ∈ inclFiles (destHome destPath) homeDir ['.'] (.dir n m cs),
      (applyOps DestFS.empty
        (copyHomeFolder homeDir destPath t1 (.dir n m cs) env).ops).files
        (goJoin (destHome destPath) f.rel) = some (some f.content, some f.mode)) ∧
    (∀ dr ∈ inclDirs (destHome destPath) homeDir ['.'] (.dir n m cs), dr.rel ≠ ['.'] →
      (applyOps DestFS.empty
        (copyHomeFolder homeDir destPath t1 (.dir n m cs) env).ops).dirs
        (goJoin (destHome destPath) dr.rel) = some dr.mode) ∧
    (applyOps DestFS.empty
      (copyHomeFolder homeDir destPath t1 (.dir n m cs) env).ops).dirs
      (destHome destPath) = some 493 := by
  by_cases hmf : env.mkdirFails (destPath ++ '/' :: ("home_backup".data)) = true
  · exfalso
    simp only [copyHomeFolder, hmf, if_true] at hout
    simp at hout
  · have hmf' : env.mkdirFails (destHome destPath) = false := by
      simpa [destHome] using hmf
    rcases hres : walk1 (copyFn homeDir (destHome destPath) (destHome destPath)
        ((walk1 (countFn (destHome destPath)) homeDir t1 0).1) env) homeDir (.dir n m cs)
        ⟨0, [.mkdirAll (destHome destPath) 493], []⟩ with ⟨s, rr⟩
    have hrr : rr = none := by
      rcases rr with _ | r
      · rfl
      · exfalso
        cases r with
        | skipDir =>
          have hns := walk_copy_no_skip (.dir n m cs) homeDir (destHome destPath)
            (destHome destPath) ((walk1 (countFn (destHome destPath)) homeDir t1 0).1) env
            homeDir ⟨0, [.mkdirAll (destHome destPath) 493], []⟩
          rw [hres] at hns
          exact hns rfl
        | fail e =>
          simp only [copyHomeFolder] at hout
          rw [show destPath ++ '/' :: ("home_backup".data) = destHome destPath
            from rfl] at hout
          simp only [hmf', if_false, Bool.false_eq_true] at hout
          rw [hres] at hout
          simp at hout
    have h2 : (walk1 (copyFn homeDir (destHome destPath) (destHome destPath)
        ((walk1 (countFn (destHome destPath)) homeDir t1 0).1) env) homeDir (.dir n m cs)
        ⟨0, [.mkdirAll (destHome destPath) 493], []⟩).2 = none := by
      rw [hres, hrr]
    obtain ⟨hok, hcf, hmkd⟩ := walk_copy_none_imp (.dir n m cs) hw2 (destHome destPath)
      homeDir (destHome destPath) ((walk1 (countFn (destHome destPath)) homeDir t1 0).1)
      env homeDir ['.'] ⟨0, [.mkdirAll (destHome destPath) 493], []⟩
      (homeDir_pathOk homeDir) h2
    have hrun := copyHomeFolder_ok homeDir destPath t1 (.dir n m cs) env hw2 hok hcf
      hmkd hmf'
    rw [hrun]
    have hops : FSOp.mkdirAll (destHome destPath) 493 ::
        specOps (destHome destPath) (destHome destPath) homeDir ['.'] (.dir n m cs) =
        FSOp.mkdirAll (destHome destPath) 493 ::
          FSOp.mkdirAll (destHome destPath) m ::
          specOpsL (destHome destPath) (destHome destPath) homeDir ['.'] cs := by
      simp [specOps, hroot, goJoin_dot]
    have hd1 : applyOp DestFS.empty (.mkdirAll (destHome destPath) 493) =
        ⟨fun x => if x = destHome destPath then some 493 else none, fun _ => none⟩ := by
      simp [applyOp, DestFS.empty]
    have hd2 : applyOp
        (⟨fun x => if x = destHome destPath then some 493 else none, fun _ => none⟩ : DestFS)
        (.mkdirAll (destHome destPath) m) =
        ⟨fun x => if x = destHome destPath then some 493 else none, fun _ => none⟩ := by
      simp [applyOp]
    have hwparts : (cs.map Entry.name).Nodup ∧ wfL cs = true := by
      simp only [wfE, Bool.and_eq_true, decide_eq_true_eq] at hw2
      exact ⟨hw2.1.2, hw2.2⟩
    have hfresh : ∀ q ∈ inclRelsL (destHome destPath) homeDir ['.'] cs,
        (⟨fun x => if x = destHome destPath then some 493 else none,
          fun _ => none⟩ : DestFS).dirs (goJoin (destHome destPath) q) = none := by
      intro q hq
      have hne := goJoin_ne_self (d := destHome destPath) (inclRelsL_ne_dot hwparts.2 q hq)
      simp only [hne, if_false]
    have hpar : ((⟨fun x => if x = destHome destPath then some 493 else none,
        fun _ => none⟩ : DestFS).dirs (goJoin (destHome destPath) ['.'])).isSome = true := by
      rw [goJoin_dot]
      simp
    obtain ⟨hF, hD, hframe⟩ := applySpecL cs hwparts.2 hwparts.1 (destHome destPath)
      (destHome destPath) homeDir ['.']
      ⟨fun x => if x = destHome destPath then some 493 else none, fun _ => none⟩
      hfresh hpar
    have hfin : applyOps DestFS.empty (FSOp.mkdirAll (destHome destPath) 493 ::
        specOps (destHome destPath) (destHome destPath) homeDir ['.'] (.dir n m cs)) =
        applyOps
          ⟨fun x => if x = destHome destPath then some 493 else none, fun _ => none⟩
          (specOpsL (destHome destPath) (destHome destPath) homeDir ['.'] cs) := by
      rw [hops]
      simp only [applyOps, List.foldl_cons]
      rw [show applyOp DestFS.empty (FSOp.mkdirAll (destHome destPath) 493) =
        (⟨fun x => if x = destHome destPath then some 493 else none,
          fun _ => none⟩ : DestFS) from hd1]
      rw [show applyOp
        (⟨fun x => if x = destHome destPath then some 493 else none,
          fun _ => none⟩ : DestFS) (FSOp.mkdirAll (destHome destPath) m) =
        (⟨fun x => if x = destHome destPath then some 493 else none,
          fun _ => none⟩ : DestFS) from hd2]
    refine ⟨?_, ?_, ?_⟩
    · intro f hf
      simp only [inclFiles, hroot, Bool.false_eq_true, if_false] at hf
      simp only [hfin]
      exact hF f hf
    · intro dr hd hdot
      simp only [inclDirs, hroot, Bool.false_eq_true, if_false, List.mem_cons] at hd
      rcases hd with rfl | hd
      · exact absurd rfl hdot
      · simp only [hfin]
        exact hD dr hd
    · simp only [hfin]
      have hframe' := hframe (destHome destPath) (by
        intro x hx
        exact goJoin_ne_self (inclRelsL_ne_dot hwparts.2 x hx))
      rw [hframe'.1]
      simp

/-- Witness for C3 (amended): a successful run over a 0700 home directory
holding a.txt and a 0700 subdirectory sub mirrors the file with content
and bits, mirrors sub with bits 448, and gives the destination root bits
493. -/
theorem claim_C3_amended_witness :
    (applyOps DestFS.empty (copyHomeFolder ("/h".data) ("/d".data)
      (.dir ("h".data) 448 [.file ("a.txt".data) [7] 420, .dir ("sub".data) 448 []])
      (.dir ("h".data) 448 [.file ("a.txt".data) [7] 420, .dir ("sub".data) 448 []])
      ⟨fun _ => none, fun _ => false⟩).ops).files
      (goJoin (destHome ("/d".data)) ("a.txt".data)) = some (some [7], some 420) ∧
    (applyOps DestFS.empty (copyHomeFolder ("/h".data) ("/d".data)
      (.dir ("h".data) 448 [.file ("a.txt".data) [7] 420, .dir ("sub".data) 448 []])
      (.dir ("h".data) 448 [.file ("a.txt".data) [7] 420, .dir ("sub".data) 448 []])
      ⟨fun _ => none, fun _ => false⟩).ops).dirs
      (goJoin (destHome ("/d".data)) ("sub".data)) = some 448 ∧
    (applyOps DestFS.empty (copyHomeFolder ("/h".data) ("/d".data)
      (.dir ("h".data) 448 [.file ("a.txt".data) [7] 420, .dir ("sub".data) 448 []])
      (.dir ("h".data) 448 [.file ("a.txt".data) [7] 420, .dir ("sub".data) 448 []])
      ⟨fun _ => none, fun _ => false⟩).ops).dirs
      (destHome ("/d".data)) = some 493 := by
  have h := claim_C3_amended ("/h".data) ("/d".data)
    (.dir ("h".data) 448 [.file ("a.txt".data) [7] 420, .dir ("sub".data) 448 []])
    ⟨fun _ => none, fun _ => false⟩ ("h".data) 448
    [.file ("a.txt".data) [7] 420, .dir ("sub".data) 448 []]
    (by decide) (by decide) (by decide)
  exact ⟨h.1 ⟨"/h/a.txt".data, "a.txt".data, [7], 420⟩ (by decide),
    h.2.1 ⟨"/h/sub".data, "sub".data, 448⟩ (by decide) (by decide),
    h.2.2⟩

/-- C8: The destination-exclusion test is a plain string-prefix check on
absolute paths, not a component-wise ancestry check: with the home
directory /home/u chosen as destination (destination root
/home/u/home_backup), the sibling file /home/u/home_backup2 - not a
descendant of the destination root, not hidden, not matching a configured
substring - is nevertheless excluded: the run counts and copies only the
other file a, emits a single (1, 1) update, and writes nothing for
home_backup2. -/
theorem claim_C8_prefix_exclusion :
    excluded (destHome ("/home/u".data)) ("/home/u/home_backup2".data) = true ∧
    ("/home/u/home_backup2".data ≠ destHome ("/home/u".data) ∧
      hasPfx ("/home/u/home_backup2".data) (destHome ("/home/u".data) ++ ['/']) = false) ∧
    (hiddenName ("/home/u/home_backup2".data) = false ∧
      sysCachePath ("/home/u/home_backup2".data) = false) ∧
    (copyHomeFolder ("/home/u".data) ("/home/u".data)
      (.dir ("u".data) 493 [.file ("a".data) [1] 420,
        .file ("home_backup2".data) [2] 420])
      (.dir ("u".data) 493 [.file ("a".data) [1] 420,
        .file ("home_backup2".data) [2] 420])
      ⟨fun _ => none, fun _ => false⟩).total = 1 ∧
    (copyHomeFolder ("/home/u".data) ("/home/u".data)
      (.dir ("u".data) 493 [.file ("a".data) [1] 420,
        .file ("home_backup2".data) [2] 420])
      (.dir ("u".data) 493 [.file ("a".data) [1] 420,
        .file ("home_backup2".data) [2] 420])
      ⟨fun _ => none, fun _ => false⟩).events = [(1, 1)] ∧
    (applyOps DestFS.empty (copyHomeFolder ("/home/u".data) ("/home/u".data)
      (.dir ("u".data) 493 [.file ("a".data) [1] 420,
        .file ("home_backup2".data) [2] 420])
      (.dir ("u".data) 493 [.file ("a".data) [1] 420,
        .file ("home_backup2".data) [2] 420])
      ⟨fun _ => none, fun _ => false⟩).ops).files
      (goJoin (destHome ("/home/u".data)) ("home_backup2".data)) = none := by
  refine ⟨by decide, ⟨by decide, by decide⟩, ⟨by decide, by decide⟩, by decide, by decide,
    by decide⟩
